import Mathlib

/-!
Verification of the wolmgr wake-on-LAN task manager.

This file gives a shallow embedding of the task-lifecycle core of the
repository and proves properties about it:

* the task store (SQLite table `wol_tasks`) is a `List WolTask`;
* `Date.now()` and `nanoid(...)` are passed in as explicit parameters;
* each SQL statement becomes a pure function from store to store
  (a single statement executes atomically on the database, so a
  sequence of statements models any interleaving of callers);
* the namespace `Anon` embeds the anonymous worker `src/src/_worker.ts`,
  `Auth` embeds the authenticated worker (the `_worker` variant with
  users/devices), and `Waker` embeds `src/src/waker.ts`.

Machine integers do not overflow in the modelled code paths
(timestamps and counters are plain JS numbers used as integers), so
`Nat` is used for them.
-/

set_option linter.unusedVariables false

/-- JS `String.prototype.toUpperCase()` restricted to the ASCII strings the
program manipulates. -/
def upperStr (s : String) : String := String.mk (s.data.map Char.toUpper)

/-- Whitespace characters removed by JS `String.prototype.trim()` (the ASCII
ones; the program never feeds it exotic Unicode whitespace). -/
def isJsWhitespace (c : Char) : Bool :=
  c ∈ [' ', '\t', '\n', '\r', '\x0b', '\x0c']

/-- JS `String.prototype.trim()` on the character list. -/
def trimChars (cs : List Char) : List Char :=
  ((cs.dropWhile isJsWhitespace).reverse.dropWhile isJsWhitespace).reverse

/-- JS `String.prototype.trim()`. -/
def trimStr (s : String) : String := String.mk (trimChars s.data)

/-- JS truthiness of an optional string field: present and nonempty. -/
def jsTruthy : Option String → Bool
  | none => false
  | some s => s != ""

/-- `toText` from the worker sources applied to an optional string:
the empty string when the field is absent. -/
def toTextOpt : Option String → String
  | none => ""
  | some s => s

/-- A row of the `wol_tasks` table (type `WolTask` in `shared.ts`;
`userId`/`deviceId` are the optional attribution columns of the
authenticated variant, carried as table columns either way). -/
structure WolTask where
  id : String
  macAddress : String
  status : String
  createdAt : Nat
  updatedAt : Nat
  attempts : Nat
  userId : Option String
  deviceId : Option String
deriving Repr, DecidableEq

/-- The `wol_tasks` table. -/
abbrev Store := List WolTask

/-- `VALID_STATUS` from both worker variants. -/
def VALID_STATUS : List String := ["pending", "processing", "success", "failed"]

/-- A row of the waker's claim result (`{id, macAddress}`). -/
structure PendingTask where
  id : String
  macAddress : String
deriving Repr, DecidableEq

/-- SQL `ORDER BY created_at DESC`: `a` may come before `b` when
`b.createdAt ≤ a.createdAt`. -/
def crel (a b : WolTask) : Prop := b.createdAt ≤ a.createdAt

instance : DecidableRel crel := fun a b => inferInstanceAs (Decidable (_ ≤ _))

instance : IsTotal WolTask crel := ⟨fun a b => Nat.le_total b.createdAt a.createdAt⟩

instance : IsTrans WolTask crel := ⟨fun _ _ _ hab hbc => Nat.le_trans hbc hab⟩

/-- Rows ordered by `created_at DESC` (newest first). -/
def sortByCreatedDesc (l : List WolTask) : List WolTask := List.insertionSort crel l

/-- `SELECT ... WHERE id = ? LIMIT 1`: first row with the given id. -/
def rowById (s : Store) (tid : String) : Option WolTask :=
  s.find? (fun t => t.id == tid)

namespace Anon

/-- `mapRowToTask` of `src/src/_worker.ts`: the stored MAC is uppercased as
the row is read back. -/
def mapRowToTask (t : WolTask) : WolTask := { t with macAddress := upperStr t.macAddress }

/-- `getTaskById` of `src/src/_worker.ts`. -/
def getTaskById (store : Store) (id : String) : Option WolTask :=
  (store.find? (fun t => t.id == id)).map mapRowToTask

/-- `getTaskByMac` of `src/src/_worker.ts`: the argument is only uppercased
(no separator canonicalization), compared to the stored column, newest row
first. -/
def getTaskByMac (store : Store) (macAddress : String) : Option WolTask :=
  let normalizedMac := upperStr macAddress
  ((sortByCreatedDesc (store.filter (fun t => t.macAddress == normalizedMac))).head?).map
    mapRowToTask

/-- `persistTask` of `src/src/_worker.ts`: upsert by id.  The anonymous
worker's `ON CONFLICT ... DO UPDATE` lists only the six task columns, so an
update leaves the stored `user_id`/`device_id` columns as they were. -/
def persistTask (store : Store) (task : WolTask) : Store :=
  if ∃ u ∈ store, u.id = task.id then
    store.map fun u =>
      if u.id = task.id then { task with userId := u.userId, deviceId := u.deviceId } else u
  else store ++ [task]

/-- `createTask` of `src/src/_worker.ts`: the MAC is only uppercased; there
is no validation and no separator canonicalization. -/
def createTask (newId : String) (now : Nat) (macAddress : String) (store : Store) :
    Store × WolTask :=
  let task : WolTask :=
    { id := newId, macAddress := upperStr macAddress, status := "pending",
      createdAt := now, updatedAt := now, attempts := 0, userId := none, deviceId := none }
  (persistTask store task, task)

/-- `updateTaskStatus` of `src/src/_worker.ts`. -/
def updateTaskStatus (now : Nat) (store : Store) (id status : String) :
    Store × Option WolTask :=
  if status ∉ VALID_STATUS then (store, none)
  else
    match getTaskById store id with
    | none => (store, none)
    | some task =>
        let attempts := if status = "processing" then task.attempts + 1 else task.attempts
        let updatedTask : WolTask :=
          { task with status := status, updatedAt := now, attempts := attempts }
        (persistTask store updatedTask, some updatedTask)

/-- The lookup part of `notifySuccess` of `src/src/_worker.ts`: nothing when
both payload fields are falsy, otherwise exact id lookup first, then the
MAC lookup. -/
def notifyResolve (store : Store) (idOpt macOpt : Option String) : Option WolTask :=
  if ¬ jsTruthy idOpt ∧ ¬ jsTruthy macOpt then none
  else
    match (if jsTruthy idOpt then getTaskById store (toTextOpt idOpt) else none) with
    | some t => some t
    | none => if jsTruthy macOpt then getTaskByMac store (toTextOpt macOpt) else none

/-- `notifySuccess` of `src/src/_worker.ts`. -/
def notifySuccess (now : Nat) (idOpt macOpt : Option String) (store : Store) :
    Store × Option WolTask :=
  match notifyResolve store idOpt macOpt with
  | none => (store, none)
  | some task =>
      if task.status = "success" then (store, some task)
      else
        let updatedTask : WolTask := { task with status := "success", updatedAt := now }
        (persistTask store updatedTask, some updatedTask)

end Anon

namespace Waker

/-- `normalizeMac` of `src/src/waker.ts`: trim, then uppercase. -/
def normalizeMac (mac : String) : String := upperStr (trimStr mac)

/-- The `SET` clause of the claim statement. -/
def claimUpd (now : Nat) (t : WolTask) : WolTask :=
  { t with status := "processing", updatedAt := now, attempts := t.attempts + 1 }

/-- The inner subquery of `claimPendingTasks`:
`SELECT id FROM wol_tasks WHERE status = 'pending' ORDER BY created_at DESC LIMIT ?`
(the selected rows, before projecting the ids). -/
def claimSelect (limit : Nat) (store : Store) : List WolTask :=
  (sortByCreatedDesc (store.filter (fun t => t.status == "pending"))).take limit

/-- `claimPendingTasks` of `src/src/waker.ts`: the single atomic
`UPDATE ... WHERE id IN (subquery) RETURNING id, mac_address` statement.
Returns the new table and the returned rows. -/
def claimPendingTasks (now limit : Nat) (store : Store) : Store × List PendingTask :=
  let selIds := (claimSelect limit store).map WolTask.id
  let newStore := store.map fun t => if t.id ∈ selIds then claimUpd now t else t
  let returned := (newStore.filter (fun t => t.id ∈ selIds)).map fun t =>
    PendingTask.mk t.id (normalizeMac t.macAddress)
  (newStore, returned)

/-- `setStatus` of `src/src/waker.ts`:
`UPDATE wol_tasks SET status = ?, updated_at = ? WHERE id = ?`. -/
def setStatus (now : Nat) (store : Store) (id status : String) : Store :=
  store.map fun t => if t.id = id then { t with status := status, updatedAt := now } else t

end Waker

namespace Auth

/-- The characters kept by the regex `[^0-9A-F]` replacement in
`normalizeMacAddress` (applied after uppercasing). -/
def isMacHexUpper (c : Char) : Bool :=
  c ∈ ['0', '1', '2', '3', '4', '5', '6', '7', '8', '9', 'A', 'B', 'C', 'D', 'E', 'F']

/-- `hex.match(/.{1,2}/g)`: split into chunks of (at most) two characters. -/
def chunkPairs : List Char → List String
  | [] => []
  | [c] => [String.mk [c]]
  | a :: b :: rest => String.mk [a, b] :: chunkPairs rest

/-- `normalizeMacAddress` of the authenticated worker: trim, uppercase, drop
everything that is not an uppercase hex digit, require exactly 12 digits,
and join the six pairs with `:`. -/
def normalizeMacAddress (input : String) : Option String :=
  let raw := (trimStr input).data.map Char.toUpper
  let hex := raw.filter isMacHexUpper
  if hex.length ≠ 12 then none
  else
    let chunks := chunkPairs hex
    if chunks.length ≠ 6 then none
    else some (String.intercalate ":" chunks)

/-- `mapRowToTask` of the authenticated worker. -/
def mapRowToTask (t : WolTask) : WolTask := { t with macAddress := upperStr t.macAddress }

/-- `getTaskById` of the authenticated worker. -/
def getTaskById (store : Store) (id : String) : Option WolTask :=
  (store.find? (fun t => t.id == id)).map mapRowToTask

/-- `persistTask` of the authenticated worker: upsert writing all eight
columns. -/
def persistTask (store : Store) (task : WolTask) : Store :=
  if ∃ u ∈ store, u.id = task.id then
    store.map fun u => if u.id = task.id then task else u
  else store ++ [task]

/-- `createTask` of the authenticated worker: throws (here: `none`, leaving
the store untouched) when `normalizeMacAddress` rejects the input. -/
def createTask (newId : String) (now : Nat) (macAddress : String)
    (userId deviceId : Option String) (store : Store) : Store × Option WolTask :=
  match normalizeMacAddress macAddress with
  | none => (store, none)
  | some mac =>
      let task : WolTask :=
        { id := newId, macAddress := mac, status := "pending",
          createdAt := now, updatedAt := now, attempts := 0,
          userId := userId, deviceId := deviceId }
      (persistTask store task, some task)

/-- `updateTaskStatus` of the authenticated worker. -/
def updateTaskStatus (now : Nat) (store : Store) (id status : String) :
    Store × Option WolTask :=
  if status ∉ VALID_STATUS then (store, none)
  else
    match getTaskById store id with
    | none => (store, none)
    | some task =>
        let attempts := if status = "processing" then task.attempts + 1 else task.attempts
        let updatedTask : WolTask :=
          { task with status := status, updatedAt := now, attempts := attempts }
        (persistTask store updatedTask, some updatedTask)

/-- The lookup part of `notifySuccess` of the authenticated worker: exact id
lookup first, then the newest row whose stored MAC equals the normalized
submitted MAC. -/
def notifyResolve (store : Store) (idOpt macOpt : Option String) : Option WolTask :=
  let id := toTextOpt idOpt
  let mac : Option String :=
    if jsTruthy macOpt then normalizeMacAddress (toTextOpt macOpt) else none
  let row0 : Option WolTask := if id ≠ "" then store.find? (fun t => t.id == id) else none
  match row0 with
  | some r => some r
  | none =>
      match mac with
      | some m => (sortByCreatedDesc (store.filter (fun t => t.macAddress == m))).head?
      | none => none

/-- `notifySuccess` of the authenticated worker. -/
def notifySuccess (now : Nat) (idOpt macOpt : Option String) (store : Store) :
    Store × Option WolTask :=
  match notifyResolve store idOpt macOpt with
  | none => (store, none)
  | some row =>
      let task := mapRowToTask row
      if task.status = "success" then (store, some task)
      else
        let updatedTask : WolTask := { task with status := "success", updatedAt := now }
        (persistTask store updatedTask, some updatedTask)

/-- The `PUT /api/wol/tasks` handler of the authenticated worker reduced to
its observable effect: the HTTP status code of the response and the
resulting store.  `body` is the parsed JSON body (`none` when parsing
failed). -/
def putStatusResponse (now : Nat) (body : Option (Option String × Option String))
    (store : Store) : Nat × Store :=
  match body with
  | none => (400, store)
  | some (idOpt, statusOpt) =>
      if ¬ jsTruthy idOpt ∨ ¬ jsTruthy statusOpt then (400, store)
      else
        match updateTaskStatus now store (toTextOpt idOpt) (toTextOpt statusOpt) with
        | (s2, none) => (404, s2)
        | (s2, some _) => (200, s2)

end Auth

/-- One lifecycle operation hitting the shared store (each is a single
atomic database statement in the source, so a list of operations models an
arbitrary interleaving of callers). -/
inductive Op where
  | claim (now limit : Nat)
  | update (now : Nat) (id status : String)
  | notify (now : Nat) (idOpt macOpt : Option String)

/-- Effect of one operation on the store. -/
def applyOp (op : Op) (s : Store) : Store :=
  match op with
  | .claim now limit => (Waker.claimPendingTasks now limit s).1
  | .update now id status => (Anon.updateTaskStatus now s id status).1
  | .notify now idOpt macOpt => (Anon.notifySuccess now idOpt macOpt s).1

/-- Effect of a sequence of operations. -/
def applyTrace (ops : List Op) (s : Store) : Store :=
  match ops with
  | [] => s
  | op :: rest => applyTrace rest (applyOp op s)

/-- Whether the operation makes the task `tid` enter `processing`:
either the claim statement selects it, or an explicit update carries status
`processing` and the task exists. -/
def opEnters (op : Op) (s : Store) (tid : String) : Bool :=
  match op with
  | .claim _ limit => ((Waker.claimSelect limit s).map WolTask.id).contains tid
  | .update _ id status => id == tid && status == "processing" && (rowById s id).isSome
  | .notify _ _ _ => false

/-- Number of times the task `tid` enters `processing` along a trace. -/
def enteringCount (tid : String) : List Op → Store → Nat
  | [], _ => 0
  | op :: rest, s =>
      (if opEnters op s tid then 1 else 0) + enteringCount tid rest (applyOp op s)

/-- The row written by `updateTaskStatus` (either variant) when it finds the
stored row `t`: the read path uppercases the MAC, the update sets the status,
stamps `updatedAt` and bumps `attempts` exactly on `processing`. -/
def updRecord (now : Nat) (status : String) (t : WolTask) : WolTask :=
  { t with
      macAddress := upperStr t.macAddress, status := status, updatedAt := now,
      attempts := if status = "processing" then t.attempts + 1 else t.attempts }

/-- The row written by `notifySuccess` (either variant) when it resolves the
stored row `t` and `t` is not yet `success`. -/
def notifyRecord (now : Nat) (t : WolTask) : WolTask :=
  { t with macAddress := upperStr t.macAddress, status := "success", updatedAt := now }

/-- A hex digit in either case: the characters a valid MAC may use for its
twelve digits. -/
def isHexDigitAny (c : Char) : Bool :=
  c ∈ ['0', '1', '2', '3', '4', '5', '6', '7', '8', '9',
    'A', 'B', 'C', 'D', 'E', 'F', 'a', 'b', 'c', 'd', 'e', 'f']

/-- A MAC string rendered from six digit pairs in a given separator style:
pairs joined by the separator. -/
def renderMacPairs (sep : Char) : List (Char × Char) → List Char
  | [] => []
  | [(a, b)] => [a, b]
  | (a, b) :: rest => a :: b :: sep :: renderMacPairs sep rest

/-- The digit pairs flattened to a character list. -/
def pairsToChars : List (Char × Char) → List Char
  | [] => []
  | (a, b) :: rest => a :: b :: pairsToChars rest

/-- The canonical uppercase colon-separated MAC built from the digit
pairs. -/
def canonicalMacOfPairs (ps : List (Char × Char)) : String :=
  String.intercalate ":" (ps.map fun q => String.mk [q.1.toUpper, q.2.toUpper])

/-- The number of hex digits `normalizeMacAddress` finds in the input
(after trimming and uppercasing). -/
def hexCount (input : String) : Nat :=
  (((trimStr input).data.map Char.toUpper).filter Auth.isMacHexUpper).length

/-! ## Basic lemmas about the store -/

theorem rowById_mem {s : Store} {tid : String} {t : WolTask}
    (h : rowById s tid = some t) : t ∈ s ∧ t.id = tid := by
  refine ⟨List.mem_of_find?_eq_some h, ?_⟩
  have hp := List.find?_some h
  simpa using hp

theorem find_id_of_mem (s : Store) (t : WolTask)
    (hnd : (s.map WolTask.id).Nodup) (ht : t ∈ s) :
    s.find? (fun u => u.id == t.id) = some t := by
  induction s with
  | nil => cases ht
  | cons u us ih =>
      simp only [List.map_cons, List.nodup_cons] at hnd
      by_cases h : u.id = t.id
      · rw [List.find?_cons_of_pos _ (by simpa using h)]
        rcases List.mem_cons.mp ht with rfl | htl
        · rfl
        · exact absurd (h ▸ List.mem_map_of_mem WolTask.id htl) hnd.1
      · rw [List.find?_cons_of_neg _ (by simpa using h)]
        rcases List.mem_cons.mp ht with rfl | htl
        · exact absurd rfl h
        · exact ih hnd.2 htl

theorem rowById_of_mem {s : Store} {t : WolTask}
    (hnd : (s.map WolTask.id).Nodup) (ht : t ∈ s) : rowById s t.id = some t :=
  find_id_of_mem s t hnd ht

theorem eq_of_mem_of_id_eq {s : Store} {a b : WolTask}
    (hnd : (s.map WolTask.id).Nodup) (ha : a ∈ s) (hb : b ∈ s)
    (hider : a.id = b.id) : a = b := by
  induction s with
  | nil => cases ha
  | cons u us ih =>
      simp only [List.map_cons, List.nodup_cons] at hnd
      rcases List.mem_cons.mp ha with rfl | ha2
      · rcases List.mem_cons.mp hb with rfl | hb2
        · rfl
        · exact absurd (hider ▸ List.mem_map_of_mem WolTask.id hb2) hnd.1
      · rcases List.mem_cons.mp hb with rfl | hb2
        · exact absurd (hider ▸ List.mem_map_of_mem WolTask.id ha2) hnd.1
        · exact ih hnd.2 ha2 hb2

theorem rowById_map (s : Store) (g : WolTask → WolTask)
    (hg : ∀ u, (g u).id = u.id) (tid : String) :
    rowById (s.map g) tid = (rowById s tid).map g := by
  induction s with
  | nil => rfl
  | cons u us ih =>
      by_cases h : u.id = tid
      · simp only [rowById, List.map_cons] at *
        rw [List.find?_cons_of_pos _ (by simp [hg u, h]),
          List.find?_cons_of_pos _ (by simp [h])]
        rfl
      · simp only [rowById, List.map_cons] at *
        rw [List.find?_cons_of_neg _ (by simp [hg u, h]),
          List.find?_cons_of_neg _ (by simp [h])]
        exact ih

theorem ids_map (s : Store) (g : WolTask → WolTask)
    (hg : ∀ u, (g u).id = u.id) :
    (s.map g).map WolTask.id = s.map WolTask.id := by
  rw [List.map_map]
  exact List.map_congr_left fun u _ => hg u

theorem Anon_persist_rowById (store : Store) (task t0 : WolTask)
    (h0 : t0 ∈ store) (hid0 : t0.id = task.id) (tid : String) :
    rowById (Anon.persistTask store task) tid =
      (rowById store tid).map (fun u =>
        if u.id = task.id then { task with userId := u.userId, deviceId := u.deviceId }
        else u) := by
  unfold Anon.persistTask
  rw [if_pos ⟨t0, h0, hid0⟩]
  exact rowById_map store _ (fun u => by by_cases h : u.id = task.id <;> simp [h]) tid

theorem Auth_persist_rowById (store : Store) (task t0 : WolTask)
    (h0 : t0 ∈ store) (hid0 : t0.id = task.id) (tid : String) :
    rowById (Auth.persistTask store task) tid =
      (rowById store tid).map (fun u => if u.id = task.id then task else u) := by
  unfold Auth.persistTask
  rw [if_pos ⟨t0, h0, hid0⟩]
  exact rowById_map store _ (fun u => by by_cases h : u.id = task.id <;> simp [h]) tid

theorem Anon_persist_ids (store : Store) (task t0 : WolTask)
    (h0 : t0 ∈ store) (hid0 : t0.id = task.id) :
    (Anon.persistTask store task).map WolTask.id = store.map WolTask.id := by
  unfold Anon.persistTask
  rw [if_pos ⟨t0, h0, hid0⟩]
  exact ids_map store _ (fun u => by by_cases h : u.id = task.id <;> simp [h])

theorem Auth_persist_ids (store : Store) (task t0 : WolTask)
    (h0 : t0 ∈ store) (hid0 : t0.id = task.id) :
    (Auth.persistTask store task).map WolTask.id = store.map WolTask.id := by
  unfold Auth.persistTask
  rw [if_pos ⟨t0, h0, hid0⟩]
  exact ids_map store _ (fun u => by by_cases h : u.id = task.id <;> simp [h])

/-! ## Claim C4: success notifications are idempotent on a `success` task -/

/-- Claim C4: for every task already in status `success`, applying a success
notification with its id again is idempotent: both worker variants return
the stored record unchanged (in particular `updatedAt` is untouched), the
store is not mutated, and the call does not error (it returns a row, not
`none`).  The hypotheses say the ids are unique, the task is stored, its id
is nonempty (JS truthiness of the payload field) and its MAC is stored
normalized uppercase, as every task created through the API is. -/
theorem notify_success_idempotent (now : Nat) (store : Store) (t : WolTask)
    (hnd : (store.map WolTask.id).Nodup) (ht : t ∈ store)
    (hs : t.status = "success") (hid : t.id ≠ "")
    (hmac : upperStr t.macAddress = t.macAddress) :
    Anon.notifySuccess now (some t.id) none store = (store, some t) ∧
    Auth.notifySuccess now (some t.id) none store = (store, some t) := by
  have hfind : store.find? (fun u => u.id == t.id) = some t := find_id_of_mem store t hnd ht
  have htr : jsTruthy (some t.id) = true := by simp [jsTruthy, hid]
  have hmapA : Anon.mapRowToTask t = t := by
    unfold Anon.mapRowToTask; rw [hmac]
  have hmapB : Auth.mapRowToTask t = t := by
    unfold Auth.mapRowToTask; rw [hmac]
  constructor
  · have hres : Anon.notifyResolve store (some t.id) none = some t := by
      unfold Anon.notifyResolve Anon.getTaskById
      rw [if_neg (by simp [htr])]
      simp only [htr, if_true, toTextOpt, hfind, Option.map_some']
      show some (Anon.mapRowToTask t) = some t
      rw [hmapA]
    unfold Anon.notifySuccess
    rw [hres]
    simp [hs]
  · unfold Auth.notifySuccess Auth.notifyResolve
    simp only [toTextOpt]
    rw [if_pos hid, hfind]
    simp [hmapB, hs]

/-- Witness for C4 at a concrete store. -/
theorem notify_success_idempotent_witness :
    Anon.notifySuccess 5 (some "t1") none
        [⟨"t1", "AA:BB:CC:DD:EE:FF", "success", 1, 2, 1, none, none⟩] =
      ([⟨"t1", "AA:BB:CC:DD:EE:FF", "success", 1, 2, 1, none, none⟩],
        some ⟨"t1", "AA:BB:CC:DD:EE:FF", "success", 1, 2, 1, none, none⟩) ∧
    Auth.notifySuccess 5 (some "t1") none
        [⟨"t1", "AA:BB:CC:DD:EE:FF", "success", 1, 2, 1, none, none⟩] =
      ([⟨"t1", "AA:BB:CC:DD:EE:FF", "success", 1, 2, 1, none, none⟩],
        some ⟨"t1", "AA:BB:CC:DD:EE:FF", "success", 1, 2, 1, none, none⟩) :=
  notify_success_idempotent 5
    [⟨"t1", "AA:BB:CC:DD:EE:FF", "success", 1, 2, 1, none, none⟩]
    ⟨"t1", "AA:BB:CC:DD:EE:FF", "success", 1, 2, 1, none, none⟩
    (by decide) (by decide) (by decide) (by decide) (by decide)

/-! ## Claim C3: a stale `applyStatus(id, "failed")` after a success -/

/-- Claim C3 counterexample: a task in `processing` receives a success
notification and then a stale `applyStatus(id, "failed")`.  The final
status is `failed`, not `success`: `updateTaskStatus` has no protection
against overwriting a terminal `success`. -/
theorem stale_failed_overwrites_cex :
    ((Anon.updateTaskStatus 3
        ((Anon.notifySuccess 2 (some "t1") none
          [⟨"t1", "AA:BB:CC:DD:EE:FF", "processing", 1, 1, 1, none, none⟩]).1)
        "t1" "failed").1.map WolTask.status) = ["failed"] ∧
      ("failed" : String) ≠ "success" := by
  constructor
  · rfl
  · decide

theorem Anon_update_effect (now : Nat) (store : Store) (tid status : String)
    (t : WolTask) (hnd : (store.map WolTask.id).Nodup)
    (h : rowById store tid = some t) (hv : status ∈ VALID_STATUS) :
    Anon.updateTaskStatus now store tid status =
      (Anon.persistTask store (updRecord now status t), some (updRecord now status t)) ∧
    rowById (Anon.updateTaskStatus now store tid status).1 tid =
      some (updRecord now status t) ∧
    (∀ v ∈ store, v.id ≠ tid → v ∈ (Anon.updateTaskStatus now store tid status).1) ∧
    (Anon.updateTaskStatus now store tid status).1.map WolTask.id =
      store.map WolTask.id := by
  obtain ⟨hmem, hidt⟩ := rowById_mem h
  have hid2 : t.id = (updRecord now status t).id := rfl
  have hunf : Anon.updateTaskStatus now store tid status =
      (Anon.persistTask store (updRecord now status t), some (updRecord now status t)) := by
    unfold Anon.updateTaskStatus Anon.getTaskById
    rw [if_neg (by simp [hv]),
      show store.find? (fun u => u.id == tid) = some t from h]
    simp only [Option.map_some']
    rfl
  refine ⟨hunf, ?_, ?_, ?_⟩
  · rw [hunf]
    show rowById (Anon.persistTask store (updRecord now status t)) tid =
      some (updRecord now status t)
    rw [Anon_persist_rowById store (updRecord now status t) t hmem hid2 tid, h]
    simp only [Option.map_some']
    simp [updRecord]
  · intro v hvmem hne
    rw [hunf]
    show v ∈ Anon.persistTask store (updRecord now status t)
    unfold Anon.persistTask
    rw [if_pos ⟨t, hmem, hid2⟩]
    refine List.mem_map.mpr ⟨v, hvmem, ?_⟩
    have hvne : ¬ v.id = (updRecord now status t).id := by
      intro hc
      have hc2 : v.id = t.id := hc
      exact hne (hc2.trans hidt)
    simp only [if_neg hvne]
  · rw [hunf]
    exact Anon_persist_ids store (updRecord now status t) t hmem hid2

/-- Claim C3 (amended): `updateTaskStatus` applies any recognized status
unconditionally, so an `applyStatus(id, "failed")` arriving after the task
reached `success` does overwrite it: the stored status afterwards is
`failed`.  Only `notifySuccess` treats `success` as absorbing. -/
theorem update_failed_overwrites (now : Nat) (store : Store) (tid : String)
    (t : WolTask) (hnd : (store.map WolTask.id).Nodup)
    (h : rowById store tid = some t) (hs : t.status = "success") :
    ∃ u, rowById (Anon.updateTaskStatus now store tid "failed").1 tid = some u ∧
      u.status = "failed" := by
  obtain ⟨-, hrow, -, -⟩ :=
    Anon_update_effect now store tid "failed" t hnd h (by simp [VALID_STATUS])
  exact ⟨_, hrow, rfl⟩

/-- Witness for the amended C3 at a concrete store. -/
theorem update_failed_overwrites_witness :
    ∃ u, rowById (Anon.updateTaskStatus 3
        [⟨"t1", "AA:BB:CC:DD:EE:FF", "success", 1, 2, 1, none, none⟩]
        "t1" "failed").1 "t1" = some u ∧ u.status = "failed" :=
  update_failed_overwrites 3
    [⟨"t1", "AA:BB:CC:DD:EE:FF", "success", 1, 2, 1, none, none⟩] "t1"
    ⟨"t1", "AA:BB:CC:DD:EE:FF", "success", 1, 2, 1, none, none⟩
    (by decide) (by decide) (by decide)

/-! ## Claim C8: unrecognized status values -/

/-- Claim C8 counterexample: a PUT with an existing id and the unrecognized
status `done` is answered with HTTP 404 (the handler maps the `null` from
`updateTaskStatus` to "Task not found or invalid status"), not 400 as the
claim states.  The store is untouched. -/
theorem invalid_status_http_cex :
    Auth.putStatusResponse 9 (some (some "t1", some "done"))
        [⟨"t1", "AA:BB:CC:DD:EE:FF", "pending", 1, 1, 0, none, none⟩] =
      (404, [⟨"t1", "AA:BB:CC:DD:EE:FF", "pending", 1, 1, 0, none, none⟩]) ∧
    (404 : Nat) ≠ 400 := by
  exact ⟨by rfl, by decide⟩

/-- Claim C8 (amended): a PUT whose status argument is not one of the four
recognized values is rejected leaving the store completely unmutated, but it
is surfaced as HTTP 404 (conflated with not-found by the handler), not 400;
400 is only returned when the id or the status field is missing. -/
theorem invalid_status_rejected (now : Nat) (store : Store) (id status : String)
    (hid : id ≠ "") (hst : status ≠ "") (hv : status ∉ VALID_STATUS) :
    Auth.putStatusResponse now (some (some id, some status)) store = (404, store) := by
  have h1 : jsTruthy (some id) = true := by simp [jsTruthy, hid]
  have h2 : jsTruthy (some status) = true := by simp [jsTruthy, hst]
  have hupd : Auth.updateTaskStatus now store id status = (store, none) := by
    unfold Auth.updateTaskStatus
    exact if_pos hv
  simp [Auth.putStatusResponse, toTextOpt, h1, h2, hupd]

/-- Witness for the amended C8 at a concrete store. -/
theorem invalid_status_rejected_witness :
    Auth.putStatusResponse 9 (some (some "t1", some "oops"))
        [⟨"t1", "AA:BB:CC:DD:EE:FF", "processing", 1, 1, 1, none, none⟩] =
      (404, [⟨"t1", "AA:BB:CC:DD:EE:FF", "processing", 1, 1, 1, none, none⟩]) :=
  invalid_status_rejected 9
    [⟨"t1", "AA:BB:CC:DD:EE:FF", "processing", 1, 1, 1, none, none⟩]
    "t1" "oops" (by decide) (by decide) (by decide)

/-! ## Claim C9: re-entering `pending` -/

/-- Claim C9 counterexample: `pending` is itself in `VALID_STATUS`, so an
explicit `applyStatus(id, "pending")` on a `processing` task moves it back
to `pending`: the lifecycle does re-enter `pending`. -/
theorem pending_reentry_cex :
    ((Anon.updateTaskStatus 5
        [⟨"t1", "AA:BB:CC:DD:EE:FF", "processing", 1, 1, 1, none, none⟩]
        "t1" "pending").1.map WolTask.status) = ["pending"] ∧
    ("processing" : String) ≠ "pending" := by
  exact ⟨by rfl, by decide⟩

/-! ## Claim C6: MAC validation and canonicalization in `createTask` -/

/-- Claim C6 counterexample: the anonymous worker's `createTask` only
uppercases.  A valid MAC submitted with `-` separators is stored as
`AA-BB-CC-DD-EE-FF`, not in the canonical colon form, and an invalid string
is stored instead of being rejected. -/
theorem createTask_no_normalize_cex :
    (Anon.createTask "x1" 5 "aa-bb-cc-dd-ee-ff" []).2.macAddress = "AA-BB-CC-DD-EE-FF" ∧
    ("AA-BB-CC-DD-EE-FF" : String) ≠ "AA:BB:CC:DD:EE:FF" ∧
    (Anon.createTask "x1" 5 "zz-not-a-mac" []).1 =
      [⟨"x1", "ZZ-NOT-A-MAC", "pending", 5, 5, 0, none, none⟩] := by
  exact ⟨by rfl, by decide, by rfl⟩

/-! ## Claim C7: notify resolution -/

/-- Claim C7 counterexample: in the anonymous worker, a success notification
for `aa-bb-cc-dd-ee-ff` does not resolve to the stored task whose MAC is the
canonical `AA:BB:CC:DD:EE:FF` of that very string (`getTaskByMac` only
uppercases, so `-` never matches `:`): the call returns `none` and the task
stays `processing`.  MAC matching in this variant is not
punctuation-insensitive. -/
theorem notify_mac_mismatch_cex :
    (Anon.notifySuccess 7 none (some "aa-bb-cc-dd-ee-ff")
        [⟨"t1", "AA:BB:CC:DD:EE:FF", "processing", 1, 1, 1, none, none⟩]) =
      ([⟨"t1", "AA:BB:CC:DD:EE:FF", "processing", 1, 1, 1, none, none⟩], none) ∧
    Auth.normalizeMacAddress "aa-bb-cc-dd-ee-ff" = some "AA:BB:CC:DD:EE:FF" := by
  exact ⟨by rfl, by rfl⟩

theorem Auth_update_effect (now : Nat) (store : Store) (tid status : String)
    (t : WolTask) (hnd : (store.map WolTask.id).Nodup)
    (h : rowById store tid = some t) (hv : status ∈ VALID_STATUS) :
    Auth.updateTaskStatus now store tid status =
      (Auth.persistTask store (updRecord now status t), some (updRecord now status t)) ∧
    rowById (Auth.updateTaskStatus now store tid status).1 tid =
      some (updRecord now status t) ∧
    (∀ v ∈ store, v.id ≠ tid → v ∈ (Auth.updateTaskStatus now store tid status).1) ∧
    (Auth.updateTaskStatus now store tid status).1.map WolTask.id =
      store.map WolTask.id := by
  obtain ⟨hmem, hidt⟩ := rowById_mem h
  have hid2 : t.id = (updRecord now status t).id := rfl
  have hunf : Auth.updateTaskStatus now store tid status =
      (Auth.persistTask store (updRecord now status t), some (updRecord now status t)) := by
    unfold Auth.updateTaskStatus Auth.getTaskById
    rw [if_neg (by simp [hv]),
      show store.find? (fun u => u.id == tid) = some t from h]
    simp only [Option.map_some']
    rfl
  refine ⟨hunf, ?_, ?_, ?_⟩
  · rw [hunf]
    show rowById (Auth.persistTask store (updRecord now status t)) tid =
      some (updRecord now status t)
    rw [Auth_persist_rowById store (updRecord now status t) t hmem hid2 tid, h]
    simp only [Option.map_some']
    simp [updRecord]
  · intro v hvmem hne
    rw [hunf]
    show v ∈ Auth.persistTask store (updRecord now status t)
    unfold Auth.persistTask
    rw [if_pos ⟨t, hmem, hid2⟩]
    refine List.mem_map.mpr ⟨v, hvmem, ?_⟩
    have hvne : ¬ v.id = (updRecord now status t).id := by
      intro hc
      have hc2 : v.id = t.id := hc
      exact hne (hc2.trans hidt)
    simp only [if_neg hvne]
  · rw [hunf]
    exact Auth_persist_ids store (updRecord now status t) t hmem hid2

theorem Anon_notify_id_effect (now : Nat) (store : Store) (tid : String)
    (t : WolTask) (hnd : (store.map WolTask.id).Nodup)
    (h : rowById store tid = some t) (hid : tid ≠ "") (hns : t.status ≠ "success") :
    Anon.notifySuccess now (some tid) none store =
      (Anon.persistTask store (notifyRecord now t), some (notifyRecord now t)) ∧
    rowById (Anon.notifySuccess now (some tid) none store).1 tid =
      some (notifyRecord now t) ∧
    (∀ v ∈ store, v.id ≠ tid → v ∈ (Anon.notifySuccess now (some tid) none store).1) ∧
    (Anon.notifySuccess now (some tid) none store).1.map WolTask.id =
      store.map WolTask.id := by
  obtain ⟨hmem, hidt⟩ := rowById_mem h
  have htr : jsTruthy (some tid) = true := by simp [jsTruthy, hid]
  have hid2 : t.id = (notifyRecord now t).id := rfl
  have hunf : Anon.notifySuccess now (some tid) none store =
      (Anon.persistTask store (notifyRecord now t), some (notifyRecord now t)) := by
    have hres : Anon.notifyResolve store (some tid) none = some (Anon.mapRowToTask t) := by
      unfold Anon.notifyResolve Anon.getTaskById
      rw [if_neg (by simp [htr])]
      simp only [htr, if_true, toTextOpt,
        show store.find? (fun u => u.id == tid) = some t from h, Option.map_some']
    unfold Anon.notifySuccess
    rw [hres]
    simp only [if_neg (show ¬ (Anon.mapRowToTask t).status = "success" from hns)]
    rfl
  refine ⟨hunf, ?_, ?_, ?_⟩
  · rw [hunf]
    show rowById (Anon.persistTask store (notifyRecord now t)) tid =
      some (notifyRecord now t)
    rw [Anon_persist_rowById store (notifyRecord now t) t hmem hid2 tid, h]
    simp only [Option.map_some']
    simp [notifyRecord]
  · intro v hvmem hne
    rw [hunf]
    show v ∈ Anon.persistTask store (notifyRecord now t)
    unfold Anon.persistTask
    rw [if_pos ⟨t, hmem, hid2⟩]
    refine List.mem_map.mpr ⟨v, hvmem, ?_⟩
    have hvne : ¬ v.id = (notifyRecord now t).id := by
      intro hc
      have hc2 : v.id = t.id := hc
      exact hne (hc2.trans hidt)
    simp only [if_neg hvne]
  · rw [hunf]
    exact Anon_persist_ids store (notifyRecord now t) t hmem hid2

theorem Auth_notify_id_effect (now : Nat) (store : Store) (tid : String)
    (t : WolTask) (hnd : (store.map WolTask.id).Nodup)
    (h : rowById store tid = some t) (hid : tid ≠ "") (hns : t.status ≠ "success") :
    Auth.notifySuccess now (some tid) none store =
      (Auth.persistTask store (notifyRecord now t), some (notifyRecord now t)) ∧
    rowById (Auth.notifySuccess now (some tid) none store).1 tid =
      some (notifyRecord now t) ∧
    (∀ v ∈ store, v.id ≠ tid → v ∈ (Auth.notifySuccess now (some tid) none store).1) ∧
    (Auth.notifySuccess now (some tid) none store).1.map WolTask.id =
      store.map WolTask.id := by
  obtain ⟨hmem, hidt⟩ := rowById_mem h
  have hid2 : t.id = (notifyRecord now t).id := rfl
  have hunf : Auth.notifySuccess now (some tid) none store =
      (Auth.persistTask store (notifyRecord now t), some (notifyRecord now t)) := by
    have hres : Auth.notifyResolve store (some tid) none = some t := by
      unfold Auth.notifyResolve
      simp only [toTextOpt]
      rw [if_pos hid, show store.find? (fun u => u.id == tid) = some t from h]
    unfold Auth.notifySuccess
    rw [hres]
    simp only [if_neg (show ¬ (Auth.mapRowToTask t).status = "success" from hns)]
    rfl
  refine ⟨hunf, ?_, ?_, ?_⟩
  · rw [hunf]
    show rowById (Auth.persistTask store (notifyRecord now t)) tid =
      some (notifyRecord now t)
    rw [Auth_persist_rowById store (notifyRecord now t) t hmem hid2 tid, h]
    simp only [Option.map_some']
    simp [notifyRecord]
  · intro v hvmem hne
    rw [hunf]
    show v ∈ Auth.persistTask store (notifyRecord now t)
    unfold Auth.persistTask
    rw [if_pos ⟨t, hmem, hid2⟩]
    refine List.mem_map.mpr ⟨v, hvmem, ?_⟩
    have hvne : ¬ v.id = (notifyRecord now t).id := by
      intro hc
      have hc2 : v.id = t.id := hc
      exact hne (hc2.trans hidt)
    simp only [if_neg hvne]
  · rw [hunf]
    exact Auth_persist_ids store (notifyRecord now t) t hmem hid2

/-! ## Claim C10: frame conditions of update and notify -/

/-- Claim C10: on an existing task, `updateTaskStatus` (either variant)
changes only `status`, `updatedAt` and — exactly when the new status is
`processing` — `attempts`, and `notifySuccess` changes only `status` and
`updatedAt`; `id`, `macAddress`, `createdAt`, `userId` and `deviceId` are
preserved, both in the returned record and in the stored row, and every
other row of the store is untouched.  The hypotheses: unique ids, the task
is stored with its MAC already uppercase (as all API-created rows are), the
status is recognized, the id is nonempty and the task is not yet `success`
(so that notify takes its updating branch). -/
theorem update_notify_frame (now : Nat) (store : Store) (tid status : String)
    (t : WolTask) (hnd : (store.map WolTask.id).Nodup)
    (h : rowById store tid = some t) (hmac : upperStr t.macAddress = t.macAddress)
    (hv : status ∈ VALID_STATUS) (hid : tid ≠ "") (hns : t.status ≠ "success") :
    ((Anon.updateTaskStatus now store tid status).2 = some { t with status := status, updatedAt := now, attempts := if status = "processing" then t.attempts + 1 else t.attempts } ∧
      rowById (Anon.updateTaskStatus now store tid status).1 tid = some { t with status := status, updatedAt := now, attempts := if status = "processing" then t.attempts + 1 else t.attempts } ∧
      (∀ v ∈ store, v.id ≠ tid → v ∈ (Anon.updateTaskStatus now store tid status).1)) ∧
    ((Auth.updateTaskStatus now store tid status).2 = some { t with status := status, updatedAt := now, attempts := if status = "processing" then t.attempts + 1 else t.attempts } ∧
      rowById (Auth.updateTaskStatus now store tid status).1 tid = some { t with status := status, updatedAt := now, attempts := if status = "processing" then t.attempts + 1 else t.attempts } ∧
      (∀ v ∈ store, v.id ≠ tid → v ∈ (Auth.updateTaskStatus now store tid status).1)) ∧
    ((Anon.notifySuccess now (some tid) none store).2 = some { t with status := "success", updatedAt := now } ∧
      rowById (Anon.notifySuccess now (some tid) none store).1 tid = some { t with status := "success", updatedAt := now } ∧
      (∀ v ∈ store, v.id ≠ tid → v ∈ (Anon.notifySuccess now (some tid) none store).1)) ∧
    ((Auth.notifySuccess now (some tid) none store).2 = some { t with status := "success", updatedAt := now } ∧
      rowById (Auth.notifySuccess now (some tid) none store).1 tid = some { t with status := "success", updatedAt := now } ∧
      (∀ v ∈ store, v.id ≠ tid → v ∈ (Auth.notifySuccess now (some tid) none store).1)) := by
  have hconvU : updRecord now status t = { t with status := status, updatedAt := now, attempts := if status = "processing" then t.attempts + 1 else t.attempts } := by
    unfold updRecord; rw [hmac]
  have hconvN : notifyRecord now t = { t with status := "success", updatedAt := now } := by
    unfold notifyRecord; rw [hmac]
  obtain ⟨a1, a2, a3, -⟩ := Anon_update_effect now store tid status t hnd h hv
  obtain ⟨b1, b2, b3, -⟩ := Auth_update_effect now store tid status t hnd h hv
  obtain ⟨c1, c2, c3, -⟩ := Anon_notify_id_effect now store tid t hnd h hid hns
  obtain ⟨d1, d2, d3, -⟩ := Auth_notify_id_effect now store tid t hnd h hid hns
  refine ⟨⟨?_, ?_, a3⟩, ⟨?_, ?_, b3⟩, ⟨?_, ?_, c3⟩, ⟨?_, ?_, d3⟩⟩
  · rw [a1, hconvU]
  · rw [a2, hconvU]
  · rw [b1, hconvU]
  · rw [b2, hconvU]
  · rw [c1, hconvN]
  · rw [c2, hconvN]
  · rw [d1, hconvN]
  · rw [d2, hconvN]

/-- Witness for C10 at a concrete store (the first conjunct, instantiated). -/
theorem update_notify_frame_witness :
    (Anon.updateTaskStatus 9
        [⟨"t1", "AA:BB:CC:DD:EE:FF", "processing", 1, 1, 1, none, none⟩]
        "t1" "failed").2 =
      some ⟨"t1", "AA:BB:CC:DD:EE:FF", "failed", 1, 9, 1, none, none⟩ :=
  (update_notify_frame 9
    [⟨"t1", "AA:BB:CC:DD:EE:FF", "processing", 1, 1, 1, none, none⟩]
    "t1" "failed" ⟨"t1", "AA:BB:CC:DD:EE:FF", "processing", 1, 1, 1, none, none⟩
    (by decide) (by decide) (by decide) (by decide) (by decide) (by decide)).1.1

theorem Anon_mac_lookup_cases (s : Store) (mac : String) :
    Anon.getTaskByMac s mac = none ∨
    ∃ r0 ∈ s, Anon.getTaskByMac s mac = some (Anon.mapRowToTask r0) := by
  unfold Anon.getTaskByMac
  show Option.map Anon.mapRowToTask
      (sortByCreatedDesc (s.filter (fun t => t.macAddress == upperStr mac))).head? = none ∨ _
  cases hhead : (sortByCreatedDesc
      (s.filter (fun t => t.macAddress == upperStr mac))).head? with
  | none => left; rfl
  | some r0 =>
      right
      have hr0 : r0 ∈ s := by
        have h1 : r0 ∈ sortByCreatedDesc (s.filter (fun t => t.macAddress == upperStr mac)) :=
          List.mem_of_mem_head? (by simp [hhead])
        have h2 : r0 ∈ s.filter (fun t => t.macAddress == upperStr mac) :=
          (List.perm_insertionSort crel _).mem_iff.mp h1
        exact (List.mem_filter.mp h2).1
      refine ⟨r0, hr0, ?_⟩
      show Option.map Anon.mapRowToTask
        (sortByCreatedDesc (s.filter (fun t => t.macAddress == upperStr mac))).head? =
        some (Anon.mapRowToTask r0)
      rw [hhead]
      rfl

theorem Anon_resolve_cases (s : Store) (idOpt macOpt : Option String) :
    Anon.notifyResolve s idOpt macOpt = none ∨
    ∃ r0 ∈ s, Anon.notifyResolve s idOpt macOpt = some (Anon.mapRowToTask r0) := by
  unfold Anon.notifyResolve
  by_cases hc : ¬ jsTruthy idOpt ∧ ¬ jsTruthy macOpt
  · left; rw [if_pos hc]
  · rw [if_neg hc]
    have hfall : (if jsTruthy macOpt then Anon.getTaskByMac s (toTextOpt macOpt) else none) = none ∨
        ∃ r0 ∈ s, (if jsTruthy macOpt then Anon.getTaskByMac s (toTextOpt macOpt) else none) =
          some (Anon.mapRowToTask r0) := by
      by_cases hm : jsTruthy macOpt
      · rw [if_pos hm]; exact Anon_mac_lookup_cases s (toTextOpt macOpt)
      · left; rw [if_neg hm]
    by_cases hi : jsTruthy idOpt
    · rw [if_pos hi]
      unfold Anon.getTaskById
      cases hfind : s.find? (fun u => u.id == toTextOpt idOpt) with
      | some r0 =>
          exact Or.inr ⟨r0, List.mem_of_find?_eq_some hfind, rfl⟩
      | none =>
          exact hfall
    · rw [if_neg hi]
      exact hfall

theorem Anon_update_cases (now : Nat) (s : Store) (id status : String) :
    (Anon.updateTaskStatus now s id status).1 = s ∨
    ∃ t, rowById s id = some t ∧ status ∈ VALID_STATUS ∧
      (Anon.updateTaskStatus now s id status).1 =
        Anon.persistTask s (updRecord now status t) := by
  by_cases hv : status ∈ VALID_STATUS
  · cases hfind : s.find? (fun u => u.id == id) with
    | none =>
        left
        unfold Anon.updateTaskStatus Anon.getTaskById
        rw [if_neg (by simp [hv]), hfind]
        rfl
    | some r =>
        right
        refine ⟨r, hfind, hv, ?_⟩
        unfold Anon.updateTaskStatus Anon.getTaskById
        rw [if_neg (by simp [hv]), hfind]
        simp only [Option.map_some']
        rfl
  · left
    unfold Anon.updateTaskStatus
    rw [if_pos hv]

theorem Anon_notify_cases (now : Nat) (idOpt macOpt : Option String) (s : Store) :
    (Anon.notifySuccess now idOpt macOpt s).1 = s ∨
    ∃ r ∈ s, (Anon.notifySuccess now idOpt macOpt s).1 =
      Anon.persistTask s (notifyRecord now r) := by
  unfold Anon.notifySuccess
  rcases Anon_resolve_cases s idOpt macOpt with hres | ⟨r0, hr0, hres⟩
  · left; rw [hres]
  · rw [hres]
    by_cases hs : (Anon.mapRowToTask r0).status = "success"
    · left
      show (if (Anon.mapRowToTask r0).status = "success" then (s, some (Anon.mapRowToTask r0)) else (Anon.persistTask s { Anon.mapRowToTask r0 with status := "success", updatedAt := now }, some { Anon.mapRowToTask r0 with status := "success", updatedAt := now })).1 = s
      rw [if_pos hs]
    · right
      refine ⟨r0, hr0, ?_⟩
      show (if (Anon.mapRowToTask r0).status = "success" then (s, some (Anon.mapRowToTask r0)) else (Anon.persistTask s { Anon.mapRowToTask r0 with status := "success", updatedAt := now }, some { Anon.mapRowToTask r0 with status := "success", updatedAt := now })).1 = Anon.persistTask s (notifyRecord now r0)
      rw [if_neg hs]
      rfl

theorem applyOp_ids (op : Op) (s : Store) :
    (applyOp op s).map WolTask.id = s.map WolTask.id := by
  cases op with
  | claim now limit =>
      show (s.map fun t =>
        if t.id ∈ (Waker.claimSelect limit s).map WolTask.id then Waker.claimUpd now t
        else t).map WolTask.id = s.map WolTask.id
      exact ids_map s _ (fun u => by
        by_cases hq : u.id ∈ (Waker.claimSelect limit s).map WolTask.id <;>
          simp [hq, Waker.claimUpd])
  | update now id status =>
      show ((Anon.updateTaskStatus now s id status).1).map WolTask.id = s.map WolTask.id
      rcases Anon_update_cases now s id status with hcase | ⟨t, hrow, hv, hcase⟩
      · rw [hcase]
      · rw [hcase]
        obtain ⟨hmem, hidt⟩ := rowById_mem hrow
        exact Anon_persist_ids s (updRecord now status t) t hmem rfl
  | notify now idOpt macOpt =>
      show ((Anon.notifySuccess now idOpt macOpt s).1).map WolTask.id = s.map WolTask.id
      rcases Anon_notify_cases now idOpt macOpt s with hcase | ⟨r, hr, hcase⟩
      · rw [hcase]
      · rw [hcase]
        exact Anon_persist_ids s (notifyRecord now r) r hr rfl

theorem applyOp_step (op : Op) (s : Store) (tid : String) (t : WolTask)
    (hnd : (s.map WolTask.id).Nodup) (h : rowById s tid = some t) :
    ∃ u, rowById (applyOp op s) tid = some u ∧
      u.attempts = t.attempts + (if opEnters op s tid then 1 else 0) ∧
      (u.status = t.status ∨ u.status = "processing" ∨ u.status = "success" ∨
        ∃ n i st, op = Op.update n i st ∧ u.status = st) := by
  obtain ⟨hmem, hidt⟩ := rowById_mem h
  cases op with
  | claim now limit =>
      have hrw : rowById (applyOp (Op.claim now limit) s) tid =
          (rowById s tid).map (fun u =>
            if u.id ∈ (Waker.claimSelect limit s).map WolTask.id then Waker.claimUpd now u
            else u) := by
        show rowById (s.map fun u =>
          if u.id ∈ (Waker.claimSelect limit s).map WolTask.id then Waker.claimUpd now u
          else u) tid = _
        exact rowById_map s _ (fun u => by
          by_cases hq : u.id ∈ (Waker.claimSelect limit s).map WolTask.id <;>
            simp [hq, Waker.claimUpd]) tid
      rw [hrw, h]
      simp only [Option.map_some']
      by_cases hsel : t.id ∈ (Waker.claimSelect limit s).map WolTask.id
      · have hent : opEnters (Op.claim now limit) s tid = true := by
          show ((Waker.claimSelect limit s).map WolTask.id).elem tid = true
          exact List.elem_eq_true_of_mem (hidt ▸ hsel)
        refine ⟨Waker.claimUpd now t, by rw [if_pos hsel], ?_, ?_⟩
        · simp [hent, Waker.claimUpd]
        · right; left; rfl
      · have hent : opEnters (Op.claim now limit) s tid = false := by
          show ((Waker.claimSelect limit s).map WolTask.id).elem tid = false
          cases he : ((Waker.claimSelect limit s).map WolTask.id).elem tid with
          | false => rfl
          | true => exact absurd (List.mem_of_elem_eq_true he) (hidt ▸ hsel)
        refine ⟨t, by rw [if_neg hsel], by simp [hent], Or.inl rfl⟩
  | update now id status =>
      by_cases hv : status ∈ VALID_STATUS
      · cases hfind : s.find? (fun u => u.id == id) with
        | none =>
            have hsame : applyOp (Op.update now id status) s = s := by
              show (Anon.updateTaskStatus now s id status).1 = s
              unfold Anon.updateTaskStatus Anon.getTaskById
              rw [if_neg (by simp [hv]), hfind]
              rfl
            have hent : opEnters (Op.update now id status) s tid = false := by
              show (id == tid && status == "processing" && (rowById s id).isSome) = false
              have hnone : rowById s id = none := hfind
              simp [hnone]
            rw [hsame, h]
            exact ⟨t, rfl, by simp [hent], Or.inl rfl⟩
        | some r =>
            have hrid : r.id = id := by simpa using List.find?_some hfind
            have hrmem : r ∈ s := List.mem_of_find?_eq_some hfind
            have hres : applyOp (Op.update now id status) s =
                Anon.persistTask s (updRecord now status r) := by
              show (Anon.updateTaskStatus now s id status).1 = _
              unfold Anon.updateTaskStatus Anon.getTaskById
              rw [if_neg (by simp [hv]), hfind]
              simp only [Option.map_some']
              rfl
            have hrow2 := Anon_persist_rowById s (updRecord now status r) r hrmem rfl tid
            rw [hres, hrow2, h]
            simp only [Option.map_some']
            by_cases hit : tid = id
            · have hteq : r = t := by
                refine eq_of_mem_of_id_eq hnd hrmem hmem ?_
                rw [hrid, hidt]
                exact hit.symm
              subst hteq
              have hsome : (rowById s id).isSome = true := by
                rw [show rowById s id = some r from hfind]; rfl
              refine ⟨_, by rw [if_pos (show r.id = (updRecord now status r).id from rfl)],
                ?_, ?_⟩
              · show (updRecord now status r).attempts =
                  r.attempts + (if opEnters (Op.update now id status) s tid then 1 else 0)
                have hent : opEnters (Op.update now id status) s tid =
                    (status == "processing") := by
                  show (id == tid && status == "processing" && (rowById s id).isSome) = _
                  rw [hsome]
                  have : (id == tid) = true := by simp [hit.symm]
                  rw [this]
                  simp
                rw [hent]
                unfold updRecord
                by_cases hp : status = "processing"
                · simp [hp]
                · simp [hp, show (status == "processing") = false by simp [hp]]
              · right; right; right
                exact ⟨now, id, status, rfl, rfl⟩
            · have hne2 : ¬ r.id = (updRecord now status r).id → False := fun hc => hc rfl
              refine ⟨t, ?_, ?_, Or.inl rfl⟩
              · rw [if_neg (show ¬ t.id = (updRecord now status r).id from ?_)]
                intro hc
                have hc2 : t.id = r.id := hc
                exact hit (hidt.symm.trans (hc2.trans hrid))
              · have hent : opEnters (Op.update now id status) s tid = false := by
                  show (id == tid && status == "processing" && (rowById s id).isSome) = false
                  have : (id == tid) = false := by
                    simp only [beq_eq_false_iff_ne, ne_eq]
                    exact fun hc => hit hc.symm
                  rw [this]
                  simp
                simp [hent]
      · have hsame : applyOp (Op.update now id status) s = s := by
          show (Anon.updateTaskStatus now s id status).1 = s
          unfold Anon.updateTaskStatus
          rw [if_pos hv]
        have hent : opEnters (Op.update now id status) s tid = false := by
          show (id == tid && status == "processing" && (rowById s id).isSome) = false
          have hnp : status ≠ "processing" := fun hc => hv (by rw [hc]; simp [VALID_STATUS])
          have : (status == "processing") = false := by simp [hnp]
          rw [this]
          simp
        rw [hsame, h]
        exact ⟨t, rfl, by simp [hent], Or.inl rfl⟩
  | notify now idOpt macOpt =>
      have hent : opEnters (Op.notify now idOpt macOpt) s tid = false := rfl
      rcases Anon_notify_cases now idOpt macOpt s with hcase | ⟨r, hr, hcase⟩
      · rw [show applyOp (Op.notify now idOpt macOpt) s =
            (Anon.notifySuccess now idOpt macOpt s).1 from rfl, hcase, h]
        exact ⟨t, rfl, by simp [hent], Or.inl rfl⟩
      · have hrow2 := Anon_persist_rowById s (notifyRecord now r) r hr rfl tid
        rw [show applyOp (Op.notify now idOpt macOpt) s =
            (Anon.notifySuccess now idOpt macOpt s).1 from rfl, hcase, hrow2, h]
        simp only [Option.map_some']
        by_cases hit : t.id = (notifyRecord now r).id
        · have hteq : r = t := by
            refine eq_of_mem_of_id_eq hnd hr hmem ?_
            exact (show t.id = r.id from hit).symm
          subst hteq
          refine ⟨_, by rw [if_pos hit], ?_, ?_⟩
          · simp [hent, notifyRecord]
          · right; right; left; rfl
        · exact ⟨t, by rw [if_neg hit], by simp [hent], Or.inl rfl⟩

/-! ## Claims C5 and C9: trace invariants -/

/-- Claim C5: the `attempts` counter increases by exactly 1 each time the
task enters `processing` — when the waker's claim statement selects it, or
when an explicit update with status `processing` finds it — and never
changes on transitions to `success`/`failed` or on a notify.  Along any
trace of lifecycle operations on the shared store, the final `attempts`
equals the initial `attempts` plus the number of processing-entering events
(`enteringCount`): a task starting at `attempts = 0` that is claimed `k`
times ends with `attempts = k`, and one only ever updated to
`success`/`failed` without entering `processing` stays at `attempts = 0`. -/
theorem attempts_counts_processing (ops : List Op) (store : Store) (tid : String)
    (t : WolTask) (hnd : (store.map WolTask.id).Nodup)
    (h : rowById store tid = some t) :
    ∃ u, rowById (applyTrace ops store) tid = some u ∧
      u.attempts = t.attempts + enteringCount tid ops store := by
  induction ops generalizing store t with
  | nil => exact ⟨t, h, by simp [enteringCount]⟩
  | cons op rest ih =>
      obtain ⟨u1, hu1, hatt, -⟩ := applyOp_step op store tid t hnd h
      have hnd2 : ((applyOp op store).map WolTask.id).Nodup := by
        rw [applyOp_ids]; exact hnd
      obtain ⟨u, hu, hfin⟩ := ih (applyOp op store) u1 hnd2 hu1
      refine ⟨u, hu, ?_⟩
      rw [hfin, hatt]
      show t.attempts + (if opEnters op store tid then 1 else 0) +
        enteringCount tid rest (applyOp op store) =
        t.attempts + ((if opEnters op store tid then 1 else 0) +
          enteringCount tid rest (applyOp op store))
      omega

/-- Witness for C5: a pending task is claimed, fails, is explicitly retried
(`processing`), succeeds via notify, and is not selected by a further claim;
its `attempts` ends at the initial value plus the entering count. -/
theorem attempts_counts_processing_witness :
    ∃ u, rowById (applyTrace
        [Op.claim 2 10, Op.update 3 "a" "failed", Op.update 4 "a" "processing",
          Op.notify 5 (some "a") none, Op.claim 6 10]
        [⟨"a", "AA:BB:CC:DD:EE:FF", "pending", 1, 1, 0, none, none⟩]) "a" = some u ∧
      u.attempts =
        (⟨"a", "AA:BB:CC:DD:EE:FF", "pending", 1, 1, 0, none, none⟩ : WolTask).attempts +
          enteringCount "a"
            [Op.claim 2 10, Op.update 3 "a" "failed", Op.update 4 "a" "processing",
              Op.notify 5 (some "a") none, Op.claim 6 10]
            [⟨"a", "AA:BB:CC:DD:EE:FF", "pending", 1, 1, 0, none, none⟩] :=
  attempts_counts_processing
    [Op.claim 2 10, Op.update 3 "a" "failed", Op.update 4 "a" "processing",
      Op.notify 5 (some "a") none, Op.claim 6 10]
    [⟨"a", "AA:BB:CC:DD:EE:FF", "pending", 1, 1, 0, none, none⟩] "a"
    ⟨"a", "AA:BB:CC:DD:EE:FF", "pending", 1, 1, 0, none, none⟩
    (by decide) (by decide)

/-- Claim C9 (amended): the claim statement writes only `processing`, a
notify writes only `success`, and `updateTaskStatus` writes the status it is
given — which may be `pending`, since `pending` is one of the four
recognized values.  Hence along any trace whose explicit updates never carry
the literal status `pending`, a task that has left `pending` never returns
to it; the only way back is an explicit `applyStatus(id, "pending")`. -/
theorem pending_not_reentered (ops : List Op) (store : Store) (tid : String)
    (t : WolTask) (hnd : (store.map WolTask.id).Nodup)
    (h : rowById store tid = some t) (hst : t.status ≠ "pending")
    (hops : ∀ op ∈ ops, ∀ n i st, op = Op.update n i st → st ≠ "pending") :
    ∃ u, rowById (applyTrace ops store) tid = some u ∧ u.status ≠ "pending" := by
  induction ops generalizing store t with
  | nil => exact ⟨t, h, hst⟩
  | cons op rest ih =>
      obtain ⟨u1, hu1, -, hstat⟩ := applyOp_step op store tid t hnd h
      have hnd2 : ((applyOp op store).map WolTask.id).Nodup := by
        rw [applyOp_ids]; exact hnd
      have hu1p : u1.status ≠ "pending" := by
        rcases hstat with h1 | h1 | h1 | ⟨n, i, st, hop, h1⟩
        · rw [h1]; exact hst
        · rw [h1]; decide
        · rw [h1]; decide
        · rw [h1]
          exact hops op (List.mem_cons_self op rest) n i st hop
      exact ih (applyOp op store) u1 hnd2 hu1 hu1p
        (fun op2 h2 => hops op2 (List.mem_cons_of_mem op h2))

/-- Witness for the amended C9: claim, explicit failure, then a notify — the
task never shows `pending` again. -/
theorem pending_not_reentered_witness :
    ∃ u, rowById (applyTrace
        [Op.claim 2 10, Op.update 3 "a" "failed", Op.notify 4 (some "a") none]
        [⟨"a", "AA:BB:CC:DD:EE:FF", "processing", 1, 1, 1, none, none⟩]) "a" = some u ∧
      u.status ≠ "pending" :=
  pending_not_reentered
    [Op.claim 2 10, Op.update 3 "a" "failed", Op.notify 4 (some "a") none]
    [⟨"a", "AA:BB:CC:DD:EE:FF", "processing", 1, 1, 1, none, none⟩] "a"
    ⟨"a", "AA:BB:CC:DD:EE:FF", "processing", 1, 1, 1, none, none⟩
    (by decide) (by decide) (by decide)
    (by
      intro op hmem n i st hop
      fin_cases hmem
      · cases hop
      · obtain ⟨-, -, h3⟩ : (3 : Nat) = n ∧ "a" = i ∧ "failed" = st := by
          simpa using hop
        rw [← h3]
        decide
      · cases hop)

theorem dropWhile_all_false {p : Char → Bool} {l : List Char}
    (h : ∀ c ∈ l, p c = false) : l.dropWhile p = l := by
  cases l with
  | nil => rfl
  | cons a l2 => simp [List.dropWhile_cons, h a (List.mem_cons_self a l2)]

theorem trimChars_of_no_ws {l : List Char}
    (h : ∀ c ∈ l, isJsWhitespace c = false) : trimChars l = l := by
  unfold trimChars
  rw [dropWhile_all_false h,
    dropWhile_all_false (fun c hc => h c (List.mem_reverse.mp hc)),
    List.reverse_reverse]

theorem mem_renderMacPairs {sep : Char} {ps : List (Char × Char)} {c : Char}
    (h : c ∈ renderMacPairs sep ps) : c = sep ∨ ∃ q ∈ ps, c = q.1 ∨ c = q.2 := by
  induction ps with
  | nil => cases h
  | cons q rest ih =>
      cases rest with
      | nil =>
          obtain ⟨a, b⟩ := q
          simp only [renderMacPairs, List.mem_cons, List.not_mem_nil, or_false] at h
          rcases h with rfl | rfl
          · exact Or.inr ⟨(c, b), List.mem_cons_self _ _, Or.inl rfl⟩
          · exact Or.inr ⟨(a, c), List.mem_cons_self _ _, Or.inr rfl⟩
      | cons r rs =>
          obtain ⟨a, b⟩ := q
          have heq : renderMacPairs sep ((a, b) :: r :: rs) =
              a :: b :: sep :: renderMacPairs sep (r :: rs) := rfl
          rw [heq] at h
          simp only [List.mem_cons] at h
          rcases h with rfl | rfl | rfl | h
          · exact Or.inr ⟨(c, b), List.mem_cons_self _ _, Or.inl rfl⟩
          · exact Or.inr ⟨(a, c), List.mem_cons_self _ _, Or.inr rfl⟩
          · exact Or.inl rfl
          · rcases ih h with h2 | ⟨q2, hq2, h3⟩
            · exact Or.inl h2
            · exact Or.inr ⟨q2, List.mem_cons_of_mem _ hq2, h3⟩

theorem map_renderMacPairs (f : Char → Char) (sep : Char) (ps : List (Char × Char)) :
    (renderMacPairs sep ps).map f =
      renderMacPairs (f sep) (ps.map fun q => (f q.1, f q.2)) := by
  induction ps with
  | nil => rfl
  | cons q rest ih =>
      cases rest with
      | nil => obtain ⟨a, b⟩ := q; rfl
      | cons r rs =>
          obtain ⟨a, b⟩ := q
          have heq : renderMacPairs sep ((a, b) :: r :: rs) =
              a :: b :: sep :: renderMacPairs sep (r :: rs) := rfl
          rw [heq]
          simp only [List.map_cons]
          rw [ih]
          rfl

theorem filter_renderMacPairs (p : Char → Bool) (sep : Char) (ps : List (Char × Char))
    (hsep : p sep = false) (hps : ∀ q ∈ ps, p q.1 = true ∧ p q.2 = true) :
    (renderMacPairs sep ps).filter p = pairsToChars ps := by
  induction ps with
  | nil => rfl
  | cons q rest ih =>
      obtain ⟨ha, hb⟩ := hps q (List.mem_cons_self q rest)
      cases rest with
      | nil =>
          obtain ⟨a, b⟩ := q
          show List.filter p [a, b] = [a, b]
          simp_all [List.filter_cons]
      | cons r rs =>
          obtain ⟨a, b⟩ := q
          have heq : renderMacPairs sep ((a, b) :: r :: rs) =
              a :: b :: sep :: renderMacPairs sep (r :: rs) := rfl
          rw [heq]
          have ih2 := ih (fun q2 hq2 => hps q2 (List.mem_cons_of_mem _ hq2))
          simp only [List.filter_cons]
          simp only [ha, hb, hsep] at *
          simp only [if_true, if_false]
          rw [ih2]
          rfl

theorem pairsToChars_length (ps : List (Char × Char)) :
    (pairsToChars ps).length = 2 * ps.length := by
  induction ps with
  | nil => rfl
  | cons q rest ih =>
      obtain ⟨a, b⟩ := q
      show (a :: b :: pairsToChars rest).length = 2 * (rest.length + 1)
      simp [ih]
      omega

theorem chunkPairs_pairsToChars (ps : List (Char × Char)) :
    Auth.chunkPairs (pairsToChars ps) = ps.map fun q => String.mk [q.1, q.2] := by
  induction ps with
  | nil => rfl
  | cons q rest ih =>
      obtain ⟨a, b⟩ := q
      show Auth.chunkPairs (a :: b :: pairsToChars rest) = _
      cases hrest : pairsToChars rest with
      | nil =>
          have : rest = [] := by
            cases rest with
            | nil => rfl
            | cons r rs => obtain ⟨x, y⟩ := r; cases hrest
          subst this
          rfl
      | cons x xs =>
          show String.mk [a, b] :: Auth.chunkPairs (x :: xs) = _
          rw [← hrest, ih]
          rfl

theorem toUpper_hexAny {c : Char} (h : isHexDigitAny c = true) :
    Auth.isMacHexUpper c.toUpper = true := by
  have h2 : c ∈ ['0', '1', '2', '3', '4', '5', '6', '7', '8', '9',
      'A', 'B', 'C', 'D', 'E', 'F', 'a', 'b', 'c', 'd', 'e', 'f'] := by
    simpa [isHexDigitAny] using h
  fin_cases h2 <;> decide

theorem hexAny_not_ws {c : Char} (h : isHexDigitAny c = true) :
    isJsWhitespace c = false := by
  have h2 : c ∈ ['0', '1', '2', '3', '4', '5', '6', '7', '8', '9',
      'A', 'B', 'C', 'D', 'E', 'F', 'a', 'b', 'c', 'd', 'e', 'f'] := by
    simpa [isHexDigitAny] using h
  fin_cases h2 <;> decide

theorem normalizeMacAddress_spec (input : String) :
    Auth.normalizeMacAddress input =
      (if ((((trimStr input).data.map Char.toUpper).filter Auth.isMacHexUpper).length ≠ 12)
        then none
        else
          if (Auth.chunkPairs
              (((trimStr input).data.map Char.toUpper).filter Auth.isMacHexUpper)).length ≠ 6
          then none
          else some (String.intercalate ":"
            (Auth.chunkPairs
              (((trimStr input).data.map Char.toUpper).filter Auth.isMacHexUpper)))) := rfl

theorem normalizeMacAddress_render (sep : Char) (ps : List (Char × Char))
    (h6 : ps.length = 6)
    (hhex : ∀ q ∈ ps, isHexDigitAny q.1 = true ∧ isHexDigitAny q.2 = true)
    (hsep : sep = ':' ∨ sep = '-') :
    Auth.normalizeMacAddress (String.mk (renderMacPairs sep ps)) =
      some (canonicalMacOfPairs ps) := by
  have hnw : ∀ c ∈ renderMacPairs sep ps, isJsWhitespace c = false := by
    intro c hc
    rcases mem_renderMacPairs hc with rfl | ⟨q, hq, hcq⟩
    · rcases hsep with rfl | rfl <;> decide
    · rcases hcq with rfl | rfl
      · exact hexAny_not_ws (hhex q hq).1
      · exact hexAny_not_ws (hhex q hq).2
  have htrim : trimChars (renderMacPairs sep ps) = renderMacPairs sep ps :=
    trimChars_of_no_ws hnw
  have hupsep : sep.toUpper = sep := by rcases hsep with rfl | rfl <;> decide
  have hmap : (renderMacPairs sep ps).map Char.toUpper =
      renderMacPairs sep (ps.map fun q => (q.1.toUpper, q.2.toUpper)) := by
    rw [map_renderMacPairs, hupsep]
  have hfil : (renderMacPairs sep (ps.map fun q => (q.1.toUpper, q.2.toUpper))).filter
        Auth.isMacHexUpper = pairsToChars (ps.map fun q => (q.1.toUpper, q.2.toUpper)) := by
    apply filter_renderMacPairs
    · rcases hsep with rfl | rfl <;> decide
    · intro q hq
      obtain ⟨q0, hq0, rfl⟩ := List.mem_map.mp hq
      exact ⟨toUpper_hexAny (hhex q0 hq0).1, toUpper_hexAny (hhex q0 hq0).2⟩
  have hhex2 : ((trimStr (String.mk (renderMacPairs sep ps))).data.map Char.toUpper).filter
        Auth.isMacHexUpper = pairsToChars (ps.map fun q => (q.1.toUpper, q.2.toUpper)) := by
    show ((trimChars (renderMacPairs sep ps)).map Char.toUpper).filter Auth.isMacHexUpper = _
    rw [htrim, hmap, hfil]
  have hlen : (pairsToChars (ps.map fun q => (q.1.toUpper, q.2.toUpper))).length = 12 := by
    rw [pairsToChars_length]
    simp [h6]
  have hch : Auth.chunkPairs (pairsToChars (ps.map fun q => (q.1.toUpper, q.2.toUpper))) =
      (ps.map fun q => (q.1.toUpper, q.2.toUpper)).map fun q => String.mk [q.1, q.2] :=
    chunkPairs_pairsToChars _
  have hchlen : (Auth.chunkPairs
      (pairsToChars (ps.map fun q => (q.1.toUpper, q.2.toUpper)))).length = 6 := by
    rw [hch]
    simp [h6]
  rw [normalizeMacAddress_spec, hhex2,
    if_neg (by rw [hlen]; simp), if_neg (by rw [hchlen]; simp), hch]
  unfold canonicalMacOfPairs
  rw [List.map_map]
  rfl

theorem normalizeMacAddress_invalid (input : String) (h : hexCount input ≠ 12) :
    Auth.normalizeMacAddress input = none := by
  rw [normalizeMacAddress_spec]
  exact if_pos h

/-- Claim C6 (amended): the authenticated worker's `createTask` validates
and canonicalizes: for every MAC given as six pairs of hex digits (either
letter case) joined by `:` or `-`, it stores and returns the task with the
canonical uppercase colon-separated MAC; and whenever the input does not
contain exactly twelve hex digits (wrong length, or non-hex characters in
place of digits), it rejects with an invalid-argument error and stores
nothing.  The anonymous worker's `createTask`, by contrast, only uppercases
and never rejects (see the counterexample). -/
theorem createTask_mac_normalization (newId : String) (now : Nat) (store : Store)
    (sep : Char) (ps : List (Char × Char)) (input : String)
    (userId deviceId : Option String) :
    (ps.length = 6 →
      (∀ q ∈ ps, isHexDigitAny q.1 = true ∧ isHexDigitAny q.2 = true) →
      (sep = ':' ∨ sep = '-') →
      (¬ ∃ u ∈ store, u.id = newId) →
      Auth.createTask newId now (String.mk (renderMacPairs sep ps)) userId deviceId store =
        (store ++ [⟨newId, canonicalMacOfPairs ps, "pending", now, now, 0, userId, deviceId⟩],
          some ⟨newId, canonicalMacOfPairs ps, "pending", now, now, 0, userId, deviceId⟩)) ∧
    (hexCount input ≠ 12 →
      Auth.createTask newId now input userId deviceId store = (store, none)) := by
  constructor
  · intro h6 hhex hsep hfresh
    unfold Auth.createTask
    rw [normalizeMacAddress_render sep ps h6 hhex hsep]
    show (Auth.persistTask store
        ⟨newId, canonicalMacOfPairs ps, "pending", now, now, 0, userId, deviceId⟩,
      some (⟨newId, canonicalMacOfPairs ps, "pending", now, now, 0, userId,
        deviceId⟩ : WolTask)) = _
    unfold Auth.persistTask
    rw [if_neg hfresh]
  · intro hinv
    unfold Auth.createTask
    rw [normalizeMacAddress_invalid input hinv]

/-- Claim C7 (amended): `notifySuccess` resolution in the authenticated
worker tries the exact id lookup first (when the id field is nonempty and a
row matches, the mac field is ignored); when the id is not supplied or
matches no row, it falls back to the most recently created task whose
stored MAC equals the normalization of the submitted MAC — so a MAC
submitted with `-` separators or lowercase matches a task stored uppercase
with `:`, and ties are broken newest-created-first.  In the anonymous
worker the fallback only uppercases the submitted MAC, so `-` never
matches a stored `:` (see the counterexample). -/
theorem notify_resolution (store : Store) (idOpt : Option String) (id mac m : String)
    (r : WolTask) :
    (id ≠ "" → store.find? (fun u => u.id == id) = some r →
      ∀ macOpt, Auth.notifyResolve store (some id) macOpt = some r) ∧
    ((toTextOpt idOpt = "" ∨ store.find? (fun u => u.id == toTextOpt idOpt) = none) →
      mac ≠ "" → Auth.normalizeMacAddress mac = some m →
      (∃ u ∈ store, u.macAddress = m) →
      ∃ r2, Auth.notifyResolve store idOpt (some mac) = some r2 ∧ r2.macAddress = m ∧
        ∀ u ∈ store, u.macAddress = m → u.createdAt ≤ r2.createdAt) := by
  constructor
  · intro hid hfind macOpt
    unfold Auth.notifyResolve
    simp only [toTextOpt]
    rw [if_pos hid, hfind]
  · intro hno hmac hnorm hex
    have hjs : jsTruthy (some mac) = true := by simp [jsTruthy, hmac]
    have hrow0 : (if toTextOpt idOpt ≠ "" then
        store.find? (fun t => t.id == toTextOpt idOpt) else none) = (none : Option WolTask) := by
      rcases hno with h0 | h0
      · rw [if_neg (by simp [h0])]
      · by_cases hcase : toTextOpt idOpt ≠ ""
        · rw [if_pos hcase, h0]
        · rw [if_neg hcase]
    have hmacval : (if jsTruthy (some mac) then
        Auth.normalizeMacAddress (toTextOpt (some mac)) else none) = some m := by
      rw [if_pos hjs]
      exact hnorm
    have hres : Auth.notifyResolve store idOpt (some mac) =
        (sortByCreatedDesc (store.filter (fun t => t.macAddress == m))).head? := by
      unfold Auth.notifyResolve
      simp only [hrow0, hmacval]
    obtain ⟨u0, hu0, hu0m⟩ := hex
    have hu0f : u0 ∈ store.filter (fun t => t.macAddress == m) := by
      rw [List.mem_filter]
      exact ⟨hu0, by simp [hu0m]⟩
    cases hsl : sortByCreatedDesc (store.filter (fun t => t.macAddress == m)) with
    | nil =>
        exfalso
        have hmem : u0 ∈ sortByCreatedDesc (store.filter (fun t => t.macAddress == m)) :=
          (List.perm_insertionSort crel _).mem_iff.mpr hu0f
        rw [hsl] at hmem
        cases hmem
    | cons r2 tl =>
        have hr2f : r2 ∈ store.filter (fun t => t.macAddress == m) := by
          have hmem : r2 ∈ sortByCreatedDesc (store.filter (fun t => t.macAddress == m)) := by
            rw [hsl]
            exact List.mem_cons_self _ _
          exact (List.perm_insertionSort crel _).mem_iff.mp hmem
        refine ⟨r2, by rw [hres, hsl]; rfl, ?_, ?_⟩
        · have hb := (List.mem_filter.mp hr2f).2
          simpa using hb
        · intro u hu hum
          have huf : u ∈ store.filter (fun t => t.macAddress == m) := by
            rw [List.mem_filter]
            exact ⟨hu, by simp [hum]⟩
          have husort : u ∈ sortByCreatedDesc (store.filter (fun t => t.macAddress == m)) :=
            (List.perm_insertionSort crel _).mem_iff.mpr huf
          have hsorted : List.Sorted crel
              (sortByCreatedDesc (store.filter (fun t => t.macAddress == m))) :=
            List.sorted_insertionSort crel _
          rw [hsl] at hsorted husort
          rcases List.mem_cons.mp husort with rfl | htl
          · exact le_refl _
          · exact List.rel_of_sorted_cons hsorted u htl

/-- Witness for the amended C6: `aa-bb-cc-dd-ee-ff` is accepted and stored
canonically; `nope` is rejected with the store untouched. -/
theorem createTask_mac_normalization_witness :
    Auth.createTask "w1" 7 (String.mk (renderMacPairs '-'
        [('a', 'a'), ('b', 'b'), ('c', 'c'), ('d', 'd'), ('e', 'e'), ('f', 'f')]))
        none none [] =
      ([⟨"w1", canonicalMacOfPairs
          [('a', 'a'), ('b', 'b'), ('c', 'c'), ('d', 'd'), ('e', 'e'), ('f', 'f')],
          "pending", 7, 7, 0, none, none⟩],
        some ⟨"w1", canonicalMacOfPairs
          [('a', 'a'), ('b', 'b'), ('c', 'c'), ('d', 'd'), ('e', 'e'), ('f', 'f')],
          "pending", 7, 7, 0, none, none⟩) ∧
    Auth.createTask "w1" 7 "nope" none none [] = ([], none) :=
  ⟨(createTask_mac_normalization "w1" 7 [] '-'
      [('a', 'a'), ('b', 'b'), ('c', 'c'), ('d', 'd'), ('e', 'e'), ('f', 'f')]
      "nope" none none).1 (by decide) (by decide) (by decide) (by simp),
    (createTask_mac_normalization "w1" 7 [] '-'
      [('a', 'a'), ('b', 'b'), ('c', 'c'), ('d', 'd'), ('e', 'e'), ('f', 'f')]
      "nope" none none).2 (by decide)⟩

/-- Witness for the amended C7: the id hit wins over the mac field, and a
dash-lowercase submitted MAC resolves to the newest task stored with the
canonical colon-uppercase MAC. -/
theorem notify_resolution_witness :
    Auth.notifyResolve
        [⟨"t1", "AA:BB:CC:DD:EE:FF", "processing", 1, 1, 1, none, none⟩,
          ⟨"t2", "AA:BB:CC:DD:EE:FF", "pending", 5, 5, 0, none, none⟩]
        (some "t1") (some "zz") =
      some ⟨"t1", "AA:BB:CC:DD:EE:FF", "processing", 1, 1, 1, none, none⟩ ∧
    ∃ r2, Auth.notifyResolve
        [⟨"t1", "AA:BB:CC:DD:EE:FF", "processing", 1, 1, 1, none, none⟩,
          ⟨"t2", "AA:BB:CC:DD:EE:FF", "pending", 5, 5, 0, none, none⟩]
        none (some "aa-bb-cc-dd-ee-ff") = some r2 ∧
      r2.macAddress = "AA:BB:CC:DD:EE:FF" ∧
      ∀ u ∈ [⟨"t1", "AA:BB:CC:DD:EE:FF", "processing", 1, 1, 1, none, none⟩,
          (⟨"t2", "AA:BB:CC:DD:EE:FF", "pending", 5, 5, 0, none, none⟩ : WolTask)],
        u.macAddress = "AA:BB:CC:DD:EE:FF" → u.createdAt ≤ r2.createdAt :=
  ⟨(notify_resolution
      [⟨"t1", "AA:BB:CC:DD:EE:FF", "processing", 1, 1, 1, none, none⟩,
        ⟨"t2", "AA:BB:CC:DD:EE:FF", "pending", 5, 5, 0, none, none⟩]
      none "t1" "aa-bb-cc-dd-ee-ff" "AA:BB:CC:DD:EE:FF"
      ⟨"t1", "AA:BB:CC:DD:EE:FF", "processing", 1, 1, 1, none, none⟩).1
      (by decide) (by decide) (some "zz"),
    (notify_resolution
      [⟨"t1", "AA:BB:CC:DD:EE:FF", "processing", 1, 1, 1, none, none⟩,
        ⟨"t2", "AA:BB:CC:DD:EE:FF", "pending", 5, 5, 0, none, none⟩]
      none "t1" "aa-bb-cc-dd-ee-ff" "AA:BB:CC:DD:EE:FF"
      ⟨"t1", "AA:BB:CC:DD:EE:FF", "processing", 1, 1, 1, none, none⟩).2
      (Or.inl rfl) (by decide) (by decide) (by decide)⟩

/-! ## Claims C1 and C2: the claim protocol -/

/-- Claim C1: for every `limit` and store with unique ids, a single
`claimPendingTasks` call
(i) returns at most `limit` rows;
(ii) every returned row `{id, macAddress}` comes from a stored task that was
`pending`, and that task now sits in the new store as its claimed version —
status `processing`, `attempts` incremented by 1, `updatedAt` stamped;
(iii) a task none of whose ids is returned is left completely unchanged;
(iv) every row of the new store is either an original row or the claimed
version of a returned pending row — a row is claimed and returned, or
untouched and not returned;
(v) the selection is ordered by `createdAt` descending, and
(vi) no unselected pending task is newer than any selected one. -/
theorem claimPending_spec (now limit : Nat) (store : Store)
    (hnd : (store.map WolTask.id).Nodup) :
    (Waker.claimPendingTasks now limit store).2.length ≤ limit ∧
    (∀ p ∈ (Waker.claimPendingTasks now limit store).2,
      ∃ t ∈ store, t.id = p.id ∧ t.status = "pending" ∧
        p.macAddress = Waker.normalizeMac t.macAddress ∧
        Waker.claimUpd now t ∈ (Waker.claimPendingTasks now limit store).1) ∧
    (∀ t ∈ store, (∀ p ∈ (Waker.claimPendingTasks now limit store).2, p.id ≠ t.id) →
      t ∈ (Waker.claimPendingTasks now limit store).1) ∧
    (∀ u ∈ (Waker.claimPendingTasks now limit store).1,
      u ∈ store ∨
        ∃ t ∈ store, t.status = "pending" ∧ u = Waker.claimUpd now t ∧
          ∃ p ∈ (Waker.claimPendingTasks now limit store).2, p.id = t.id) ∧
    List.Sorted crel (Waker.claimSelect limit store) ∧
    (∀ t ∈ store, t.status = "pending" → t ∉ Waker.claimSelect limit store →
      ∀ x ∈ Waker.claimSelect limit store, t.createdAt ≤ x.createdAt) := by
  have hg : ∀ u : WolTask,
      ((fun t => if t.id ∈ (Waker.claimSelect limit store).map WolTask.id
        then Waker.claimUpd now t else t) u).id = u.id := by
    intro u
    by_cases hq : u.id ∈ (Waker.claimSelect limit store).map WolTask.id <;>
      simp [hq, Waker.claimUpd]
  have hns : (Waker.claimPendingTasks now limit store).1 =
      store.map (fun t => if t.id ∈ (Waker.claimSelect limit store).map WolTask.id
        then Waker.claimUpd now t else t) := rfl
  have hret : (Waker.claimPendingTasks now limit store).2 =
      (((Waker.claimPendingTasks now limit store).1).filter
          (fun t => t.id ∈ (Waker.claimSelect limit store).map WolTask.id)).map
        (fun t => PendingTask.mk t.id (Waker.normalizeMac t.macAddress)) := rfl
  have hids : ((Waker.claimPendingTasks now limit store).1).map WolTask.id =
      store.map WolTask.id := applyOp_ids (Op.claim now limit) store
  have hsel_mem : ∀ x ∈ Waker.claimSelect limit store, x ∈ store ∧ x.status = "pending" := by
    intro x hx
    have hx2 : x ∈ sortByCreatedDesc (store.filter (fun t => t.status == "pending")) :=
      List.mem_of_mem_take hx
    have hx3 : x ∈ store.filter (fun t => t.status == "pending") :=
      (List.perm_insertionSort crel _).mem_iff.mp hx2
    obtain ⟨hx4, hx5⟩ := List.mem_filter.mp hx3
    exact ⟨hx4, by simpa using hx5⟩
  have hF5 : ∀ t ∈ store, t.id ∈ (Waker.claimSelect limit store).map WolTask.id →
      t ∈ Waker.claimSelect limit store ∧ t.status = "pending" := by
    intro t ht hid
    obtain ⟨x, hx, hxid⟩ := List.mem_map.mp hid
    obtain ⟨hxs, hxp⟩ := hsel_mem x hx
    have hxt : x = t := eq_of_mem_of_id_eq hnd hxs ht hxid
    subst hxt
    exact ⟨hx, hxp⟩
  refine ⟨?_, ?_, ?_, ?_, ?_, ?_⟩
  · -- (i) length bound
    have hlen1 : (Waker.claimPendingTasks now limit store).2.length =
        ((((Waker.claimPendingTasks now limit store).1).filter
          (fun t => t.id ∈ (Waker.claimSelect limit store).map WolTask.id)).map
            WolTask.id).length := by
      rw [hret, List.length_map, List.length_map]
    have hsubset : ∀ i ∈ (((Waker.claimPendingTasks now limit store).1).filter
        (fun t => t.id ∈ (Waker.claimSelect limit store).map WolTask.id)).map WolTask.id,
        i ∈ (Waker.claimSelect limit store).map WolTask.id := by
      intro i hi
      obtain ⟨u, hu, rfl⟩ := List.mem_map.mp hi
      have hq := (List.mem_filter.mp hu).2
      simpa using hq
    have hnodup2 : ((((Waker.claimPendingTasks now limit store).1).filter
        (fun t => t.id ∈ (Waker.claimSelect limit store).map WolTask.id)).map
          WolTask.id).Nodup := by
      have hsub : List.Sublist ((((Waker.claimPendingTasks now limit store).1).filter
          (fun t => t.id ∈ (Waker.claimSelect limit store).map WolTask.id)).map WolTask.id)
          (((Waker.claimPendingTasks now limit store).1).map WolTask.id) :=
        List.Sublist.map _ (List.filter_sublist _)
      rw [hids] at hsub
      exact hnd.sublist hsub
    have hle1 := (List.subperm_of_subset hnodup2 hsubset).length_le
    have hle2 : ((Waker.claimSelect limit store).map WolTask.id).length ≤ limit := by
      rw [List.length_map]
      exact List.length_take_le limit _
    omega
  · -- (ii) returned rows are transitioned pending rows
    intro p hp
    rw [hret] at hp
    obtain ⟨u, hu, rfl⟩ := List.mem_map.mp hp
    obtain ⟨huns, hq⟩ := List.mem_filter.mp hu
    rw [hns] at huns
    obtain ⟨t, ht, rfl⟩ := List.mem_map.mp huns
    have hq2 : t.id ∈ (Waker.claimSelect limit store).map WolTask.id := by
      have hq3 := hq
      rw [hg t] at hq3
      simpa using hq3
    obtain ⟨hsel, hpend⟩ := hF5 t ht hq2
    have hgt : (fun t => if t.id ∈ (Waker.claimSelect limit store).map WolTask.id
        then Waker.claimUpd now t else t) t = Waker.claimUpd now t := if_pos hq2
    refine ⟨t, ht, ?_, hpend, ?_, ?_⟩
    · rw [if_pos hq2]
      rfl
    · rw [if_pos hq2]
      rfl
    · rw [hns]
      exact hgt ▸ List.mem_map_of_mem _ ht
  · -- (iii) frame: rows not returned are untouched
    intro t ht hnp
    by_cases hq : t.id ∈ (Waker.claimSelect limit store).map WolTask.id
    · exfalso
      have hgt : (fun u => if u.id ∈ (Waker.claimSelect limit store).map WolTask.id
          then Waker.claimUpd now u else u) t = Waker.claimUpd now t := if_pos hq
      have hin : Waker.claimUpd now t ∈ (Waker.claimPendingTasks now limit store).1 := by
        rw [hns]
        exact hgt ▸ List.mem_map_of_mem _ ht
      have hfil : Waker.claimUpd now t ∈
          ((Waker.claimPendingTasks now limit store).1).filter
            (fun u => u.id ∈ (Waker.claimSelect limit store).map WolTask.id) := by
        rw [List.mem_filter]
        refine ⟨hin, ?_⟩
        simpa [Waker.claimUpd] using hq
      have hpmem : PendingTask.mk (Waker.claimUpd now t).id
          (Waker.normalizeMac (Waker.claimUpd now t).macAddress) ∈
          (Waker.claimPendingTasks now limit store).2 := by
        rw [hret]
        exact List.mem_map_of_mem _ hfil
      exact hnp _ hpmem rfl
    · have hgt : (fun u => if u.id ∈ (Waker.claimSelect limit store).map WolTask.id
          then Waker.claimUpd now u else u) t = t := if_neg hq
      rw [hns]
      exact hgt ▸ List.mem_map_of_mem _ ht
  · -- (iv) every new row is an old row or a returned transition
    intro u hu
    rw [hns] at hu
    obtain ⟨t, ht, rfl⟩ := List.mem_map.mp hu
    by_cases hq : t.id ∈ (Waker.claimSelect limit store).map WolTask.id
    · right
      obtain ⟨hsel, hpend⟩ := hF5 t ht hq
      have hgt : (fun u => if u.id ∈ (Waker.claimSelect limit store).map WolTask.id
          then Waker.claimUpd now u else u) t = Waker.claimUpd now t := if_pos hq
      refine ⟨t, ht, hpend, hgt, ?_⟩
      have hin : Waker.claimUpd now t ∈ (Waker.claimPendingTasks now limit store).1 := by
        rw [hns]
        exact hgt ▸ List.mem_map_of_mem _ ht
      have hfil : Waker.claimUpd now t ∈
          ((Waker.claimPendingTasks now limit store).1).filter
            (fun v => v.id ∈ (Waker.claimSelect limit store).map WolTask.id) := by
        rw [List.mem_filter]
        refine ⟨hin, ?_⟩
        simpa [Waker.claimUpd] using hq
      refine ⟨PendingTask.mk (Waker.claimUpd now t).id
        (Waker.normalizeMac (Waker.claimUpd now t).macAddress), ?_, rfl⟩
      rw [hret]
      exact List.mem_map_of_mem _ hfil
    · left
      rw [if_neg hq]
      exact ht
  · -- (v) the selection is sorted newest-first
    exact (List.sorted_insertionSort crel _).sublist (List.take_sublist _ _)
  · -- (vi) unselected pending rows are no newer than any selected row
    intro t ht hpend hnotsel x hx
    have htf : t ∈ store.filter (fun u => u.status == "pending") := by
      rw [List.mem_filter]
      exact ⟨ht, by simp [hpend]⟩
    have hts : t ∈ sortByCreatedDesc (store.filter (fun u => u.status == "pending")) :=
      (List.perm_insertionSort crel _).mem_iff.mpr htf
    rw [← List.take_append_drop limit
      (sortByCreatedDesc (store.filter (fun u => u.status == "pending")))] at hts
    rcases List.mem_append.mp hts with h1 | h1
    · exact absurd h1 hnotsel
    · have hsorted : List.Sorted crel
          (sortByCreatedDesc (store.filter (fun u => u.status == "pending"))) :=
        List.sorted_insertionSort crel _
      rw [← List.take_append_drop limit
        (sortByCreatedDesc (store.filter (fun u => u.status == "pending")))] at hsorted
      exact (List.pairwise_append.mp hsorted).2.2 x hx t h1

/-- Claim C2: with `N` pending tasks and `limit ≥ N`, two claim calls on
the shared store never claim the same task: the claim is one atomic SQL
statement, so any concurrent execution of two calls serializes into one
call after the other, and for that composition the returned id sets are
disjoint and their union is exactly the ids of the `N` pending tasks (the
second call finds no `pending` row and returns nothing). -/
theorem claim_no_double (now1 now2 limit : Nat) (store : Store)
    (hnd : (store.map WolTask.id).Nodup)
    (hlim : (store.filter (fun t => t.status == "pending")).length ≤ limit) :
    (∀ i ∈ (Waker.claimPendingTasks now1 limit store).2.map PendingTask.id,
      i ∉ (Waker.claimPendingTasks now2 limit
        (Waker.claimPendingTasks now1 limit store).1).2.map PendingTask.id) ∧
    ((Waker.claimPendingTasks now1 limit store).2.map PendingTask.id ++
        (Waker.claimPendingTasks now2 limit
          (Waker.claimPendingTasks now1 limit store).1).2.map PendingTask.id).Perm
      ((store.filter (fun t => t.status == "pending")).map WolTask.id) := by
  have hsortlen : (sortByCreatedDesc (store.filter (fun t => t.status == "pending"))).length =
      (store.filter (fun t => t.status == "pending")).length :=
    (List.perm_insertionSort crel _).length_eq
  have hS1 : Waker.claimSelect limit store =
      sortByCreatedDesc (store.filter (fun t => t.status == "pending")) := by
    unfold Waker.claimSelect
    exact List.take_of_length_le (by rw [hsortlen]; exact hlim)
  have hperm1 : ((Waker.claimSelect limit store).map WolTask.id).Perm
      ((store.filter (fun t => t.status == "pending")).map WolTask.id) := by
    rw [hS1]
    exact (List.perm_insertionSort crel _).map WolTask.id
  have hns1 : (Waker.claimPendingTasks now1 limit store).1 =
      store.map (fun t => if t.id ∈ (Waker.claimSelect limit store).map WolTask.id
        then Waker.claimUpd now1 t else t) := rfl
  have hret1 : (Waker.claimPendingTasks now1 limit store).2 =
      (((Waker.claimPendingTasks now1 limit store).1).filter
          (fun t => t.id ∈ (Waker.claimSelect limit store).map WolTask.id)).map
        (fun t => PendingTask.mk t.id (Waker.normalizeMac t.macAddress)) := rfl
  have hids1 : ((Waker.claimPendingTasks now1 limit store).1).map WolTask.id =
      store.map WolTask.id := applyOp_ids (Op.claim now1 limit) store
  have hr1ids : (Waker.claimPendingTasks now1 limit store).2.map PendingTask.id =
      (((Waker.claimPendingTasks now1 limit store).1).filter
        (fun t => t.id ∈ (Waker.claimSelect limit store).map WolTask.id)).map WolTask.id := by
    rw [hret1, List.map_map]
    exact List.map_congr_left fun u _ => rfl
  -- A: the ids claimed by the first call are exactly the pending ids
  have hFnodup : ((((Waker.claimPendingTasks now1 limit store).1).filter
      (fun t => t.id ∈ (Waker.claimSelect limit store).map WolTask.id)).map WolTask.id).Nodup := by
    have hsub : List.Sublist ((((Waker.claimPendingTasks now1 limit store).1).filter
        (fun t => t.id ∈ (Waker.claimSelect limit store).map WolTask.id)).map WolTask.id)
        (((Waker.claimPendingTasks now1 limit store).1).map WolTask.id) :=
      List.Sublist.map _ (List.filter_sublist _)
    rw [hids1] at hsub
    exact hnd.sublist hsub
  have hpnodup : ((store.filter (fun t => t.status == "pending")).map WolTask.id).Nodup :=
    hnd.sublist (List.Sublist.map _ (List.filter_sublist _))
  have hsubF : ∀ i ∈ (((Waker.claimPendingTasks now1 limit store).1).filter
      (fun t => t.id ∈ (Waker.claimSelect limit store).map WolTask.id)).map WolTask.id,
      i ∈ (store.filter (fun t => t.status == "pending")).map WolTask.id := by
    intro i hi
    obtain ⟨u, hu, rfl⟩ := List.mem_map.mp hi
    have hq := (List.mem_filter.mp hu).2
    have hq2 : u.id ∈ (Waker.claimSelect limit store).map WolTask.id := by simpa using hq
    exact hperm1.mem_iff.mp hq2
  have hsubP : ∀ i ∈ (store.filter (fun t => t.status == "pending")).map WolTask.id,
      i ∈ (((Waker.claimPendingTasks now1 limit store).1).filter
        (fun t => t.id ∈ (Waker.claimSelect limit store).map WolTask.id)).map WolTask.id := by
    intro i hi
    obtain ⟨t, ht, rfl⟩ := List.mem_map.mp hi
    have htid : t.id ∈ (Waker.claimSelect limit store).map WolTask.id := by
      refine List.mem_map_of_mem WolTask.id ?_
      rw [hS1]
      exact (List.perm_insertionSort crel _).mem_iff.mpr ht
    have hts : t ∈ store := (List.mem_filter.mp ht).1
    have hin : Waker.claimUpd now1 t ∈ (Waker.claimPendingTasks now1 limit store).1 := by
      rw [hns1]
      exact (if_pos htid :
        (if t.id ∈ (Waker.claimSelect limit store).map WolTask.id
          then Waker.claimUpd now1 t else t) = Waker.claimUpd now1 t) ▸
        List.mem_map_of_mem _ hts
    have hfil : Waker.claimUpd now1 t ∈
        ((Waker.claimPendingTasks now1 limit store).1).filter
          (fun u => u.id ∈ (Waker.claimSelect limit store).map WolTask.id) := by
      rw [List.mem_filter]
      exact ⟨hin, by simpa [Waker.claimUpd] using htid⟩
    have hmm := List.mem_map_of_mem WolTask.id hfil
    exact hmm
  have hA : ((((Waker.claimPendingTasks now1 limit store).1).filter
      (fun t => t.id ∈ (Waker.claimSelect limit store).map WolTask.id)).map WolTask.id).Perm
      ((store.filter (fun t => t.status == "pending")).map WolTask.id) :=
    (List.subperm_of_subset hFnodup hsubF).antisymm
      (List.subperm_of_subset hpnodup hsubP)
  -- B: the second call claims nothing
  have hnopend : ((Waker.claimPendingTasks now1 limit store).1).filter
      (fun t => t.status == "pending") = [] := by
    rw [List.filter_eq_nil_iff]
    intro u hu
    rw [hns1] at hu
    obtain ⟨t, ht, rfl⟩ := List.mem_map.mp hu
    by_cases hq : t.id ∈ (Waker.claimSelect limit store).map WolTask.id
    · rw [if_pos hq]
      simp [Waker.claimUpd]
    · rw [if_neg hq]
      intro hp
      have hp2 : t.status = "pending" := by simpa using hp
      have htf : t ∈ store.filter (fun u => u.status == "pending") := by
        rw [List.mem_filter]
        exact ⟨ht, by simp [hp2]⟩
      refine hq (List.mem_map_of_mem WolTask.id ?_)
      rw [hS1]
      exact (List.perm_insertionSort crel _).mem_iff.mpr htf
  have hsel2 : Waker.claimSelect limit (Waker.claimPendingTasks now1 limit store).1 = [] := by
    unfold Waker.claimSelect
    rw [hnopend]
    rw [show sortByCreatedDesc [] = [] from rfl, List.take_nil]
  have hret2 : (Waker.claimPendingTasks now2 limit
      (Waker.claimPendingTasks now1 limit store).1).2 = [] := by
    have hr : (Waker.claimPendingTasks now2 limit
        (Waker.claimPendingTasks now1 limit store).1).2 =
        (((Waker.claimPendingTasks now2 limit
            (Waker.claimPendingTasks now1 limit store).1).1).filter
          (fun t => t.id ∈ (Waker.claimSelect limit
            (Waker.claimPendingTasks now1 limit store).1).map WolTask.id)).map
          (fun t => PendingTask.mk t.id (Waker.normalizeMac t.macAddress)) := rfl
    rw [hr, hsel2]
    simp
  constructor
  · intro i hi
    rw [hret2]
    simp
  · rw [hret2]
    simp only [List.map_nil, List.append_nil]
    rw [hr1ids]
    exact hA

/-- Witness for C1 at a concrete store (the length bound, instantiated:
three pending tasks, limit 2). -/
theorem claimPending_spec_witness :
    (Waker.claimPendingTasks 9 2
      [⟨"a", "M1", "pending", 1, 1, 0, none, none⟩,
        ⟨"b", "M2", "pending", 3, 3, 0, none, none⟩,
        ⟨"c", "M3", "pending", 2, 2, 0, none, none⟩]).2.length ≤ 2 :=
  (claimPending_spec 9 2
    [⟨"a", "M1", "pending", 1, 1, 0, none, none⟩,
      ⟨"b", "M2", "pending", 3, 3, 0, none, none⟩,
      ⟨"c", "M3", "pending", 2, 2, 0, none, none⟩] (by decide)).1

/-- Witness for C2 at a concrete store (two pending tasks, limit 5): the
ids returned by the two calls together are a permutation of the pending
ids. -/
theorem claim_no_double_witness :
    ((Waker.claimPendingTasks 7 5
        [⟨"a", "M1", "pending", 1, 1, 0, none, none⟩,
          ⟨"b", "M2", "pending", 3, 3, 0, none, none⟩]).2.map PendingTask.id ++
      (Waker.claimPendingTasks 8 5
        (Waker.claimPendingTasks 7 5
          [⟨"a", "M1", "pending", 1, 1, 0, none, none⟩,
            ⟨"b", "M2", "pending", 3, 3, 0, none, none⟩]).1).2.map PendingTask.id).Perm
      (([⟨"a", "M1", "pending", 1, 1, 0, none, none⟩,
        (⟨"b", "M2", "pending", 3, 3, 0, none, none⟩ : WolTask)].filter
          (fun t => t.status == "pending")).map WolTask.id) :=
  (claim_no_double 7 8 5
    [⟨"a", "M1", "pending", 1, 1, 0, none, none⟩,
      ⟨"b", "M2", "pending", 3, 3, 0, none, none⟩] (by decide) (by decide)).2
